import Mathlib

/-!
Shallow embedding of the Massilia simulation core (tile grid, construction,
walkers, invasion waves, BFS routing, and the per-tick orchestrator), together
with proofs of the specification claims.  JS numbers that only ever hold
integers are modeled as `Int`; the food stock, which moves in exact halves
(0.5 food per inhabitant), is modeled as `ℚ`.  Rendering, audio and DOM state
(meshes, sounds, HUD) are omitted throughout; random draws are passed in as
explicit parameters.  String cell keys of the form "x,z" are modeled as pairs.
-/

namespace Massilia

/-- Grid coordinates. -/
abbrev Pos := Int × Int

/-- The closed building catalog (types.ts `BuildingType`). -/
inductive BuildingType where
  | road
  | house
  | farm
  | well
  | market
  | barracks
  | wall
  | tower
  | forum
deriving DecidableEq

/-- Catalog entry for a building kind (constants.ts `BuildingDef`);
rendering-only fields (color, label) are omitted. -/
structure BuildingDef where
  cost : Int
  size : Nat
  hp : Int
deriving DecidableEq

/-- constants.ts `BUILDINGS`. -/
def BUILDINGS : BuildingType → BuildingDef
  | .road => ⟨5, 1, 10⟩
  | .house => ⟨30, 1, 20⟩
  | .farm => ⟨50, 2, 15⟩
  | .well => ⟨20, 1, 15⟩
  | .market => ⟨80, 1, 25⟩
  | .barracks => ⟨100, 2, 40⟩
  | .wall => ⟨10, 1, 50⟩
  | .tower => ⟨60, 1, 30⟩
  | .forum => ⟨0, 2, 100⟩

/-- constants.ts `GRID_SIZE`. -/
def GRID_SIZE : Nat := 32

/-- world/Tile.ts `Tile`. -/
structure Tile where
  x : Int
  z : Int
  building : Option BuildingType
  buildingHp : Int
  hasWater : Bool
  hasFood : Bool
  waterTimer : Int
  foodTimer : Int
deriving DecidableEq

/-- A fresh tile, as produced by the `Tile` constructor. -/
def Tile.new (x z : Int) : Tile :=
  ⟨x, z, none, 0, false, false, 0, 0⟩

/-- world/Grid.ts `Grid`: a square array of tiles.  The backing 2D array is
modeled as a total function so that in-place tile mutation becomes functional
update; out-of-bounds reads go through `getTile`, which bounds-checks exactly
as the source does. -/
structure Grid where
  size : Nat
  tiles : Int → Int → Tile

/-- The `Grid` constructor. -/
def Grid.new (size : Nat) : Grid :=
  ⟨size, fun x z => Tile.new x z⟩

def Grid.isInBounds (g : Grid) (x z : Int) : Bool :=
  decide (0 ≤ x) && decide (x < (g.size : Int)) &&
    decide (0 ≤ z) && decide (z < (g.size : Int))

def Grid.getTile (g : Grid) (x z : Int) : Option Tile :=
  if g.isInBounds x z then some (g.tiles x z) else none

/-- Functional update of one backing-array slot. -/
def Grid.setTile (g : Grid) (x z : Int) (t : Tile) : Grid :=
  ⟨g.size, fun a b => if a = x ∧ b = z then t else g.tiles a b⟩

/-- Mirrors the `const tile = grid.getTile(x, z); if (tile) { mutate }`
pattern: a bounds-checked in-place mutation. -/
def Grid.modifyTile (g : Grid) (x z : Int) (f : Tile → Tile) : Grid :=
  match g.getTile x z with
  | some t => g.setTile x z (f t)
  | none => g

def Grid.isRoad (g : Grid) (x z : Int) : Bool :=
  match g.getTile x z with
  | some t => t.building = some .road
  | none => false

/-- systems/BuildingSystem.ts `PlacedBuilding` (mesh omitted). -/
structure PlacedBuilding where
  type : BuildingType
  x : Int
  z : Int
deriving DecidableEq

/-- The footprint cells of a `size × size` building at origin `(x, z)`, in the
source's double-loop order. -/
def footprintCells (size : Nat) (x z : Int) : List Pos :=
  (List.range size).flatMap fun (dx : Nat) =>
    (List.range size).map fun (dz : Nat) => (x + (dx : Int), z + (dz : Int))

/-- `BuildingSystem.canPlace`. -/
def BuildingSystem.canPlace (g : Grid) (type : BuildingType) (x z : Int) : Bool :=
  (footprintCells (BUILDINGS type).size x z).all fun c =>
    g.isInBounds c.1 c.2 &&
      match g.getTile c.1 c.2 with
      | some t => t.building.isNone
      | none => false

/-- Write one building kind and its max hit points onto every footprint cell. -/
def markFootprint (g : Grid) (type : BuildingType) (x z : Int) : Grid :=
  (footprintCells (BUILDINGS type).size x z).foldl
    (fun g1 c =>
      g1.modifyTile c.1 c.2
        (fun t => { t with building := some type, buildingHp := (BUILDINGS type).hp }))
    g

/-- Clear every footprint cell of a building back to empty. -/
def clearFootprint (g : Grid) (type : BuildingType) (x z : Int) : Grid :=
  (footprintCells (BUILDINGS type).size x z).foldl
    (fun g1 c =>
      g1.modifyTile c.1 c.2
        (fun t => { t with building := none, buildingHp := 0 }))
    g

/-- Outcome of `BuildingSystem.place`. -/
structure PlaceResult where
  ok : Bool
  gold : Int
  grid : Grid
  placed : List PlacedBuilding

/-- `BuildingSystem.place` (mesh creation and the cosmetic wall/tower mesh
rebuild are rendering-only and omitted). -/
def BuildingSystem.place (placed : List PlacedBuilding) (g : Grid)
    (type : BuildingType) (x z : Int) (gold : Int) : PlaceResult :=
  if gold < (BUILDINGS type).cost then ⟨false, gold, g, placed⟩
  else if ¬ BuildingSystem.canPlace g type x z then ⟨false, gold, g, placed⟩
  else
    ⟨true, gold - (BUILDINGS type).cost, markFootprint g type x z,
      placed ++ [⟨type, x, z⟩]⟩

/-- Footprint containment test used by `findBuildingAt`/`removeBuildingAt`. -/
def PlacedBuilding.covers (b : PlacedBuilding) (x z : Int) : Bool :=
  decide (b.x ≤ x) && decide (x < b.x + ((BUILDINGS b.type).size : Int)) &&
    decide (b.z ≤ z) && decide (z < b.z + ((BUILDINGS b.type).size : Int))

/-- The `findIndex` scan of `removeBuildingAt`: index of the first placed
building whose footprint covers the cell. -/
def findCoverIdx (x z : Int) : List PlacedBuilding → Option Nat
  | [] => none
  | b :: rest =>
    if b.covers x z then some 0 else (findCoverIdx x z rest).map (· + 1)

/-- `BuildingSystem.removeBuildingAt` (mesh removal and the cosmetic
fortification rebuild omitted). -/
def BuildingSystem.removeBuildingAt (placed : List PlacedBuilding) (g : Grid)
    (x z : Int) : List PlacedBuilding × Grid :=
  match findCoverIdx x z placed with
  | none => (placed, g)
  | some idx =>
    let b := placed.getD idx ⟨.road, 0, 0⟩
    (placed.eraseIdx idx, clearFootprint g b.type b.x b.z)

/-- types.ts `TileData`: the serialized form of one tile. -/
structure TileData where
  x : Int
  z : Int
  building : Option BuildingType
  buildingHp : Int
  hasWater : Bool
  hasFood : Bool
  waterTimer : Int
  foodTimer : Int
deriving DecidableEq

/-- `Tile.toJSON`. -/
def Tile.toJSON (t : Tile) : TileData :=
  ⟨t.x, t.z, t.building, t.buildingHp, t.hasWater, t.hasFood, t.waterTimer, t.foodTimer⟩

/-- `Tile.fromJSON`. -/
def Tile.fromJSON (d : TileData) : Tile :=
  ⟨d.x, d.z, d.building, d.buildingHp, d.hasWater, d.hasFood, d.waterTimer, d.foodTimer⟩

/-- `Grid.toJSON`: row-major dump of the backing array. -/
def Grid.toJSON (g : Grid) : List (List TileData) :=
  (List.range g.size).map fun (x : Nat) =>
    (List.range g.size).map fun (z : Nat) => (g.tiles (x : Int) (z : Int)).toJSON

/-- `Grid.fromJSON`: a fresh grid of size `data.length` whose slots covered by
the data are overwritten from it; slots the data does not reach keep their
fresh-constructor value, as in the source. -/
def Grid.fromJSON (data : List (List TileData)) : Grid :=
  { size := data.length
    tiles := fun x z =>
      if 0 ≤ x ∧ x < (data.length : Int) then
        let row := data.getD x.toNat []
        if 0 ≤ z ∧ z < (row.length : Int) then
          Tile.fromJSON (row.getD z.toNat (Tile.new x z).toJSON)
        else Tile.new x z
      else Tile.new x z }

/-- world/Pathfinding.ts `NEIGHBORS`: the 4-directional offsets, in source
order. -/
def NEIGHBORS : List Pos := [(1, 0), (-1, 0), (0, 1), (0, -1)]

/-- The 4-neighborhood of a cell, in source direction order. -/
def neighbors4 (p : Pos) : List Pos :=
  NEIGHBORS.map fun d => (p.1 + d.1, p.2 + d.2)

/-- Does this (possibly absent) tile hold a road or forum? -/
def roadOrForum : Option Tile → Bool
  | some t => t.building = some .road || t.building = some .forum
  | none => false

/-- `floodFillRoads` worklist step, with explicit fuel (the source loop
terminates because each cell is visited at most once; the fuel passed by
`floodFillRoads` strictly exceeds the possible number of queue pops). -/
def floodFillGo (g : Grid) : Nat → List Pos → List Pos → List Pos
  | 0, _, visited => visited
  | _ + 1, [], visited => visited
  | fuel + 1, c :: rest, visited =>
    if c ∈ visited then floodFillGo g fuel rest visited
    else if ¬ g.isInBounds c.1 c.2 then floodFillGo g fuel rest visited
    else
      match g.getTile c.1 c.2 with
      | none => floodFillGo g fuel rest visited
      | some t =>
        if t.building = some .road ∨ t.building = some .forum then
          floodFillGo g fuel (rest ++ neighbors4 c) (c :: visited)
        else floodFillGo g fuel rest visited

/-- `floodFillRoads`: BFS flood fill along road/forum tiles. -/
def floodFillRoads (g : Grid) (startX startZ : Int) : List Pos :=
  floodFillGo g (4 * g.size * g.size + 2) [(startX, startZ)] []

/-- `isBuildingConnected`: is any 4-neighbor of any footprint cell in the
reachable road set? -/
def isBuildingConnected (bx bz : Int) (size : Nat) (reachable : List Pos) : Bool :=
  (List.range size).any fun (dx : Nat) =>
    (List.range size).any fun (dz : Nat) =>
      NEIGHBORS.any fun nd =>
        decide ((bx + (dx : Int) + nd.1, bz + (dz : Int) + nd.2) ∈ reachable)

/-- One step of the `getAdjacentRoadTiles` perimeter scan: `seen` dedup first,
then the inside-the-footprint skip, then the road/forum test. -/
def adjRoadStep (g : Grid) (x z : Int) (size : Nat)
    (acc : List Pos × List Pos) (key : Pos) : List Pos × List Pos :=
  if key ∈ acc.1 then acc
  else
    let seen := key :: acc.1
    if x ≤ key.1 ∧ key.1 < x + (size : Int) ∧ z ≤ key.2 ∧ key.2 < z + (size : Int) then
      (seen, acc.2)
    else if roadOrForum (g.getTile key.1 key.2) then (seen, acc.2 ++ [key])
    else (seen, acc.2)

/-- `getAdjacentRoadTiles`: road/forum tiles adjacent to a footprint, scanned
over the full perimeter in source order with duplicate suppression. -/
def getAdjacentRoadTiles (g : Grid) (x z : Int) (size : Nat) : List Pos :=
  let keys :=
    (List.range size).flatMap fun (dx : Nat) =>
      (List.range size).flatMap fun (dz : Nat) =>
        NEIGHBORS.map fun nd => (x + (dx : Int) + nd.1, z + (dz : Int) + nd.2)
  (keys.foldl (adjRoadStep g x z size) ([], [])).2

/-- `getRoadNeighbors`: road/forum tiles among the 4 neighbors of a cell. -/
def getRoadNeighbors (g : Grid) (x z : Int) : List Pos :=
  (neighbors4 (x, z)).filter fun n => roadOrForum (g.getTile n.1 n.2)

/-- systems/WalkerSystem.ts `WalkerType`. -/
inductive WalkerType where
  | water
  | food
  | soldier
  | farmer
deriving DecidableEq

/-- systems/WalkerSystem.ts `Walker` (mesh omitted; `progress` is the
per-frame interpolation fraction and is irrelevant to tick-level state). -/
structure Walker where
  type : WalkerType
  gridX : Int
  gridZ : Int
  targetX : Int
  targetZ : Int
  prevX : Int
  prevZ : Int
  lifespan : Int
  hp : Int
  homeX : Int
  homeZ : Int
deriving DecidableEq

def WALKER_LIFESPAN : Int := 30

def SOLDIER_PATROL_RADIUS : Int := 4

/-- `WalkerSystem.findAdjacentEmptyTile`; the random candidate index is the
explicit draw `r` (reduced mod the candidate count, as `Math.random()`
guarantees in the source). -/
def findAdjacentEmptyTile (g : Grid) (x z : Int) (size : Nat) (r : Nat) : Pos :=
  let candidates :=
    ((List.range (size + 2)).flatMap fun (dxn : Nat) =>
      (List.range (size + 2)).map fun (dzn : Nat) =>
        ((dxn : Int) - 1, (dzn : Int) - 1)).foldl
      (fun acc d =>
        if 0 ≤ d.1 ∧ d.1 < (size : Int) ∧ 0 ≤ d.2 ∧ d.2 < (size : Int) then acc
        else
          let nx := x + d.1
          let nz := z + d.2
          if ¬ g.isInBounds nx nz then acc
          else
            match g.getTile nx nz with
            | some t => if t.building.isNone then acc ++ [(nx, nz)] else acc
            | none => acc)
      []
  match candidates with
  | [] => (x, z)
  | _ :: _ => candidates.getD (r % candidates.length) (x, z)

/-- `WalkerSystem.spawn`: find a start cell on the building perimeter and push
a new walker; a no-op for road-bound families with no adjacent road. -/
def WalkerSystem.spawn (walkers : List Walker) (type : WalkerType) (x z : Int)
    (g : Grid) (size : Nat) (r : Nat) : List Walker :=
  let roads := getAdjacentRoadTiles g x z size
  let mk : Pos → Walker := fun sp =>
    ⟨type, sp.1, sp.2, sp.1, sp.2, x, z, WALKER_LIFESPAN,
      if type = .soldier then 20 else 15, x, z⟩
  match roads with
  | _ :: _ => walkers ++ [mk (roads.getD (r % roads.length) (x, z))]
  | [] =>
    if type = .soldier then walkers ++ [mk (findAdjacentEmptyTile g x z size r)]
    else walkers

/-- `WalkerSystem.tick`: age every walker and drop the expired ones. -/
def WalkerSystem.tick (walkers : List Walker) : List Walker :=
  (walkers.map fun w => { w with lifespan := w.lifespan - 1 }).filter
    fun w => decide (0 < w.lifespan)

/-- `WalkerSystem.serviceNearbyHouses`: refresh the matching service countdown
of every house in the walker's closed 4-neighborhood. -/
def serviceNearbyHouses (w : Walker) (g : Grid) : Grid :=
  [((0 : Int), (0 : Int)), (1, 0), (-1, 0), (0, 1), (0, -1)].foldl
    (fun g1 d =>
      g1.modifyTile (w.gridX + d.1) (w.gridZ + d.2) fun t =>
        if t.building = some .house then
          if w.type = .water then { t with waterTimer := 10 }
          else if w.type = .food then { t with foodTimer := 10 }
          else t
        else t)
    g

/-- systems/InvasionSystem.ts invader state machine states. -/
inductive InvaderState where
  | moving
  | attacking
  | dead
deriving DecidableEq

/-- systems/InvasionSystem.ts `Invader` (mesh and per-frame interpolation
progress omitted). -/
structure Invader where
  x : Int
  z : Int
  targetX : Int
  targetZ : Int
  hp : Int
  maxHp : Int
  damage : Int
  state : InvaderState
  attackCooldown : Int
  path : List Pos
  pathIndex : Nat
deriving DecidableEq

def dummyInvader : Invader := ⟨0, 0, 0, 0, 0, 0, 0, .moving, 0, [], 0⟩

def FIRST_WAVE_DELAY : Int := 30
def BASE_WAVE_INTERVAL : Int := 25
def WAVE_ACCELERATION : Int := 1
def MIN_WAVE_INTERVAL : Int := 12
def BASE_INVADERS : ℚ := 1
def INVADER_SCALING : ℚ := 3 / 2
def BARBARIAN_BASE_HP : Int := 8
def BARBARIAN_HP_SCALING : Int := 3
def BARBARIAN_BASE_DAMAGE : ℚ := 2
def BARBARIAN_DAMAGE_SCALING : ℚ := 1 / 2
def ATTACK_COOLDOWN : Int := 3

/-- `InvasionSystem.findNearestInvader`, returning the index of the nearest
live invader within range (`none` range = the soldiers' Infinity); the tie is
broken toward the earlier list element, as the strict `<` in the source does. -/
def findNearestInvaderIdx (invs : List Invader) (x z : Int)
    (range : Option Nat) : Option Nat :=
  (invs.enum.foldl
    (fun (acc : Option (Nat × Nat)) p =>
      if p.2.state = .dead then acc
      else
        let dist := (p.2.x - x).natAbs + (p.2.z - z).natAbs
        let inRange := match range with
          | none => true
          | some rg => decide (dist ≤ rg)
        let better := match acc with
          | none => true
          | some q => decide (dist < q.2)
        if inRange && better then some (p.1, dist) else acc)
    none).map Prod.fst

/-- `InvasionSystem.damageInvader`. -/
def damageInvader (inv : Invader) (dmg : Int) : Invader :=
  let inv1 := { inv with hp := inv.hp - dmg }
  if inv1.hp ≤ 0 then { inv1 with state := .dead } else inv1

/-- `WalkerSystem.isSoldierWalkable`. -/
def isSoldierWalkable (g : Grid) (x z : Int) : Bool :=
  g.isInBounds x z &&
    match g.getTile x z with
    | some t => t.building.isNone || t.building = some .road || t.building = some .forum
    | none => false

/-- `WalkerSystem.moveSoldierToward`: step one cell toward a target, preferring
the axis of larger delta, staying put when both options are blocked. -/
def moveSoldierToward (w : Walker) (tx tz : Int) (g : Grid) : Pos :=
  let dx := Int.sign (tx - w.gridX)
  let dz := Int.sign (tz - w.gridZ)
  let xOpt : List Pos := if dx ≠ 0 then [(w.gridX + dx, w.gridZ)] else []
  let zOpt : List Pos := if dz ≠ 0 then [(w.gridX, w.gridZ + dz)] else []
  let options :=
    if (tz - w.gridZ).natAbs ≤ (tx - w.gridX).natAbs then xOpt ++ zOpt
    else zOpt ++ xOpt
  match options.find? (fun o => isSoldierWalkable g o.1 o.2) with
  | some o => o
  | none => (w.gridX, w.gridZ)

/-- `WalkerSystem.soldierPatrol`: random walk on walkable cells within the
patrol radius of the home barracks, avoiding the previous cell when possible. -/
def soldierPatrol (w : Walker) (g : Grid) (r : Nat) : Pos :=
  let candidates :=
    NEIGHBORS.foldl
      (fun acc nd =>
        let nx := w.gridX + nd.1
        let nz := w.gridZ + nd.2
        if nx = w.prevX ∧ nz = w.prevZ then acc
        else if ¬ isSoldierWalkable g nx nz then acc
        else if SOLDIER_PATROL_RADIUS <
            ((nx - w.homeX).natAbs + (nz - w.homeZ).natAbs : Int) then acc
        else acc ++ [(nx, nz)])
      []
  match candidates with
  | _ :: _ => candidates.getD (r % candidates.length) (w.gridX, w.gridZ)
  | [] =>
    if isSoldierWalkable g w.prevX w.prevZ then (w.prevX, w.prevZ)
    else (w.gridX, w.gridZ)

/-- `WalkerSystem.chooseNextTile`: the tick-boundary arrival decision.  The
random draw is the explicit index `r`; soldiers chase the nearest invader or
patrol, every other family hops the road graph avoiding the cell it just
departed. -/
def WalkerSystem.chooseNextTile (g : Grid) (w : Walker) (invaders : List Invader)
    (r : Nat) : Pos :=
  if w.type = .soldier then
    if 0 < invaders.length then
      match findNearestInvaderIdx invaders w.gridX w.gridZ none with
      | some i =>
        let t := invaders.getD i dummyInvader
        moveSoldierToward w t.x t.z g
      | none => soldierPatrol w g r
    else soldierPatrol w g r
  else
    let ns := (getRoadNeighbors g w.gridX w.gridZ).filter
      fun n => decide (¬ (n.1 = w.prevX ∧ n.2 = w.prevZ))
    match ns with
    | _ :: _ => ns.getD (r % ns.length) (w.gridX, w.gridZ)
    | [] =>
      match getRoadNeighbors g w.gridX w.gridZ with
      | _ :: _ => (w.prevX, w.prevZ)
      | [] => (w.gridX, w.gridZ)

/-- The forum footprint edge length. -/
def forumSize : Nat := (BUILDINGS .forum).size

/-- The `reachedForum` scan of `computePath`: is this cell inside the forum
footprint? -/
def reachedForum (forum c : Pos) : Bool :=
  (List.range forumSize).any fun (dx : Nat) =>
    (List.range forumSize).any fun (dz : Nat) =>
      decide (c.1 = forum.1 + (dx : Int) ∧ c.2 = forum.2 + (dz : Int))

/-- The BFS visited/parent map of `computePath` ("x,z" string keys modeled as
positions). -/
abbrev VMap := List (Pos × Option Pos)

def vLookup (v : VMap) (c : Pos) : Option (Option Pos) :=
  (v.find? fun e => decide (e.1 = c)).map Prod.snd

/-- The neighbor offsets of the `computePath` BFS, in source order. -/
def bfsDirs (c : Pos) : List Pos :=
  [(c.1 + 1, c.2), (c.1 - 1, c.2), (c.1, c.2 + 1), (c.1, c.2 - 1)]

/-- Enqueue the eligible neighbors of the dequeued cell.  A neighbor is
skipped only when already visited or out of bounds; the explicit wall test of
the source takes the same enqueue action as the default case (walls stay in
the frontier — the invader attacks them on arrival instead of walking
through). -/
def bfsPush (g : Grid) (curr : Pos) :
    List Pos → List Pos → VMap → List Pos × VMap
  | [], q, v => (q, v)
  | n :: ds, q, v =>
    if (vLookup v n).isSome then bfsPush g curr ds q v
    else if ¬ g.isInBounds n.1 n.2 then bfsPush g curr ds q v
    else
      match g.getTile n.1 n.2 with
      | some t =>
        if t.building = some .wall then
          bfsPush g curr ds (q ++ [n]) ((n, some curr) :: v)
        else bfsPush g curr ds (q ++ [n]) ((n, some curr) :: v)
      | none => bfsPush g curr ds (q ++ [n]) ((n, some curr) :: v)

/-- Outcome of the BFS worklist loop. -/
inductive BfsResult where
  | found (curr : Pos) (v : VMap)
  | exhausted (v : VMap)
  | fuelOut

/-- The `computePath` BFS loop, with explicit fuel (each iteration pops one
queue entry and every cell is enqueued at most once, so the fuel passed by
`computePath` strictly exceeds the possible number of iterations; this is
proved below). -/
def bfsLoop (g : Grid) (forum : Pos) : Nat → List Pos → VMap → BfsResult
  | 0, _, _ => .fuelOut
  | _ + 1, [], v => .exhausted v
  | fuel + 1, curr :: rest, v =>
    if reachedForum forum curr then .found curr v
    else
      let qv := bfsPush g curr (bfsDirs curr) rest v
      bfsLoop g forum fuel qv.1 qv.2

/-- Path reconstruction by following parent links back to the start (the
source's `while (node) path.unshift(node)` loop); the fuel passed by
`computePath` strictly exceeds the parent-chain length. -/
def reconstructPath (v : VMap) : Nat → Pos → List Pos
  | 0, c => [c]
  | fuel + 1, c =>
    match vLookup v c with
    | some (some p) => reconstructPath v fuel p ++ [c]
    | _ => [c]

/-- `InvasionSystem.computePath`: BFS from the invader's cell to the forum
footprint over all in-bounds cells, falling back to the direct two-point path
when the search empties its queue without reaching the forum. -/
def computePath (g : Grid) (forum : Pos) (start : Pos) : List Pos :=
  match bfsLoop g forum (g.size * g.size + 2) [start] [(start, none)] with
  | .found curr v => reconstructPath v (v.length + 1) curr
  | _ => [start, forum]

/-- Write a computed path onto an invader exactly as `computePath` does:
`pathIndex` is reset to 1 and the target becomes the second waypoint when one
exists. -/
def Invader.applyPath (inv : Invader) (p : List Pos) : Invader :=
  if 1 < p.length then
    { inv with
      path := p
      pathIndex := 1
      targetX := (p.getD 1 (inv.x, inv.z)).1
      targetZ := (p.getD 1 (inv.x, inv.z)).2 }
  else { inv with path := p, pathIndex := 1 }

def computePathFor (g : Grid) (forum : Pos) (inv : Invader) : Invader :=
  inv.applyPath (computePath g forum (inv.x, inv.z))

/-- Manhattan (4-directional) distance between two cells. -/
def mdist (a b : Pos) : Nat :=
  (a.1 - b.1).natAbs + (a.2 - b.2).natAbs

/-- Is this list of cells a 4-directional walk (each consecutive pair at
Manhattan distance 1)? -/
def isStepPath : List Pos → Bool
  | [] => true
  | [_] => true
  | a :: b :: r => decide (mdist a b = 1) && isStepPath (b :: r)

/-- All in-bounds cells of an `n × n` grid. -/
def allCells (n : Nat) : List Pos :=
  (List.range n).flatMap fun (x : Nat) =>
    (List.range n).map fun (z : Nat) => ((x : Int), (z : Int))

/-- The key list of a BFS visited map. -/
def vKeys (v : VMap) : List Pos := v.map Prod.fst

/-- The part of the BFS invariant that survives into the found state: parent
links step one cell at a time, one Manhattan level down, within the map, and
the map is at least as long as any recorded depth. -/
def ParentInv (g : Grid) (start : Pos) (v : VMap) : Prop :=
  vLookup v start = some none ∧
  (∀ cp ∈ v, cp.2 = none → cp.1 = start) ∧
  (∀ cp ∈ v, ∀ pp : Pos, cp.2 = some pp →
    mdist start cp.1 = mdist start pp + 1 ∧ mdist pp cp.1 = 1 ∧
    pp ∈ vKeys v ∧ g.isInBounds cp.1.1 cp.1.2 = true) ∧
  (∀ c ∈ vKeys v, mdist start c + 1 ≤ v.length)

/-- The full BFS loop invariant: visited keys are distinct in-bounds cells,
the queue holds visited cells split into the current Manhattan level `L` and
the next, popped cells failed the forum test and had every in-bounds neighbor
visited, and every in-bounds cell at distance at most `L` is visited (those
strictly closer already popped). -/
def BfsInv (g : Grid) (forum start : Pos) (q : List Pos) (v : VMap) (L : Nat) :
    Prop :=
  (vKeys v).Nodup ∧
  ParentInv g start v ∧
  (∀ c ∈ vKeys v, g.isInBounds c.1 c.2 = true) ∧
  (∀ c ∈ q, c ∈ vKeys v) ∧
  (∃ qa qb, q = qa ++ qb ∧ (∀ c ∈ qa, mdist start c = L) ∧
    (∀ c ∈ qb, mdist start c = L + 1)) ∧
  (∀ c ∈ vKeys v, c ∉ q → reachedForum forum c = false) ∧
  (∀ c ∈ vKeys v, c ∉ q → ∀ n ∈ bfsDirs c, g.isInBounds n.1 n.2 = true →
    n ∈ vKeys v) ∧
  (∀ c : Pos, g.isInBounds c.1 c.2 = true → mdist start c ≤ L → c ∈ vKeys v) ∧
  (∀ c : Pos, g.isInBounds c.1 c.2 = true → mdist start c < L → c ∉ q)

/-- Spawn position on the randomly chosen map edge (`spawnWave`'s switch). -/
def spawnPos (edge : Nat) (offset : Int) : Pos :=
  match edge with
  | 0 => (offset, 0)
  | 1 => (offset, (GRID_SIZE : Int) - 1)
  | 2 => ((GRID_SIZE : Int) - 1, offset)
  | 3 => (0, offset)
  | _ => (0, 0)

/-- `InvasionSystem.spawnWave`: the spawned invaders of one wave, in source
order.  `edge` is the wave's random edge draw and `offs i` the i-th invader's
random offset draw (reduced mod the spread, as `Math.random()` guarantees). -/
def spawnWave (g : Grid) (forum : Pos) (waveNumber : Int) (edge : Nat)
    (offs : Nat → Nat) : List Invader :=
  let count := (Int.floor (BASE_INVADERS + (waveNumber : ℚ) * INVADER_SCALING)).toNat
  (List.range count).map fun i =>
    let spread : Int := (GRID_SIZE : Int) / 4
    let center : Int := (GRID_SIZE : Int) / 2
    let offset := center - spread / 2 + ((offs i % spread.toNat : Nat) : Int)
    let sp := spawnPos edge offset
    let hp := BARBARIAN_BASE_HP + waveNumber * BARBARIAN_HP_SCALING
    let damage := Int.floor (BARBARIAN_BASE_DAMAGE + (waveNumber : ℚ) * BARBARIAN_DAMAGE_SCALING)
    computePathFor g forum
      ⟨sp.1, sp.2, sp.1, sp.2, hp, hp, damage, .moving, 0, [], 0⟩

/-- One damage report of the invasion tick result. -/
structure DmgEvent where
  x : Int
  z : Int
  hpFrac : ℚ
deriving DecidableEq

/-- The (initially null) result record of `InvasionSystem.tick`. -/
structure InvTickResult where
  buildingsDestroyed : List (Int × Int × BuildingType)
  forumDestroyed : Bool
  damages : List DmgEvent
deriving DecidableEq

def emptyInvTickResult : InvTickResult := ⟨[], false, []⟩

/-- Outcome of one `attackBuilding` hit. -/
inductive AttackOutcome where
  | destroyed (x z : Int) (type : BuildingType)
  | forumDown
  | damaged (x z : Int) (frac : ℚ)

/-- `InvasionSystem.attackBuilding`: subtract the invader's damage from the
occupied tile's building hit points and classify the outcome. -/
def attackBuilding (inv : Invader) (g : Grid) : Grid × Option AttackOutcome :=
  match g.getTile inv.x inv.z with
  | none => (g, none)
  | some t =>
    match t.building with
    | none => (g, none)
    | some btype =>
      let newHp := t.buildingHp - inv.damage
      let g2 := g.setTile inv.x inv.z { t with buildingHp := newHp }
      if newHp ≤ 0 then
        if btype = .forum then (g2, some .forumDown)
        else (g2, some (.destroyed inv.x inv.z btype))
      else (g2, some (.damaged inv.x inv.z ((newHp : ℚ) / ((BUILDINGS btype).hp : ℚ))))

/-- The attacking-invader pass of `InvasionSystem.tick`, processing invaders
in list order and threading the mutable grid and result record. -/
def invAttackGo (forum : Pos) :
    List Invader → Grid → Option InvTickResult → List Invader →
    List Invader × Grid × Option InvTickResult
  | [], g, res, acc => (acc, g, res)
  | inv :: rest, g, res, acc =>
    if inv.state = .attacking then
      let cd := inv.attackCooldown - 1
      if cd ≤ 0 then
        let inv1 := { inv with attackCooldown := ATTACK_COOLDOWN }
        let out := attackBuilding inv1 g
        match out.2 with
        | none => invAttackGo forum rest out.1 res (acc ++ [inv1])
        | some .forumDown =>
          invAttackGo forum rest out.1
            (some { res.getD emptyInvTickResult with forumDestroyed := true })
            (acc ++ [inv1])
        | some (.destroyed x z ty) =>
          let res0 := res.getD emptyInvTickResult
          let inv2 := computePathFor out.1 forum { inv1 with state := .moving }
          invAttackGo forum rest out.1
            (some { res0 with buildingsDestroyed := res0.buildingsDestroyed ++ [(x, z, ty)] })
            (acc ++ [inv2])
        | some (.damaged x z frac) =>
          let res0 := res.getD emptyInvTickResult
          invAttackGo forum rest out.1
            (some { res0 with damages := res0.damages ++ [⟨x, z, frac⟩] })
            (acc ++ [inv1])
      else invAttackGo forum rest g res (acc ++ [{ inv with attackCooldown := cd }])
    else invAttackGo forum rest g res (acc ++ [inv])

/-- systems/InvasionSystem.ts mutable system state (scene omitted). -/
structure InvasionState where
  invaders : List Invader
  waveNumber : Int
  ticksUntilNextWave : Int
  forumPos : Pos
  warningActive : Bool
  activeWave : Bool

/-- The initial invasion state built by the `InvasionSystem` constructor. -/
def InvasionState.init (forumPos : Pos) : InvasionState :=
  ⟨[], 0, FIRST_WAVE_DELAY, forumPos, false, false⟩

/-- The random draws consumed by one wave spawn. -/
structure WaveDraws where
  edge : Nat
  offs : Nat → Nat

/-- `InvasionSystem.tick`: advance the wave countdown (spawning a wave when it
reaches zero), process attacking invaders, then sweep the dead. -/
def InvasionSystem.tick (st : InvasionState) (g : Grid) (dw : WaveDraws) :
    InvasionState × Grid × Option InvTickResult :=
  let t1 := st.ticksUntilNextWave - 1
  let warning := decide (t1 ≤ 5) && decide (0 < t1)
  let fired := decide (t1 ≤ 0)
  let invs1 :=
    if fired then st.invaders ++ spawnWave g st.forumPos st.waveNumber dw.edge dw.offs
    else st.invaders
  let wave1 := if fired then st.waveNumber + 1 else st.waveNumber
  let t2 :=
    if fired then max MIN_WAVE_INTERVAL (BASE_WAVE_INTERVAL - wave1 * WAVE_ACCELERATION)
    else t1
  let stepped := invAttackGo st.forumPos invs1 g none []
  let invs2 := stepped.1.filter fun i => decide (¬ i.state = .dead)
  (⟨invs2, wave1, t2, st.forumPos, warning, decide (0 < invs2.length)⟩,
    stepped.2.1, stepped.2.2)

def SOLDIER_DAMAGE : Int := 4
def SOLDIER_ENGAGE_RANGE : Nat := 5

/-- The per-soldier pass of `CombatSystem.update`: simultaneous melee exchange
with the nearest live invader at Manhattan distance ≤ 1; dying soldiers are
removed, dying invaders marked dead. -/
def combatGo : List Walker → List Invader → List Walker →
    List Walker × List Invader
  | [], invs, acc => (acc, invs)
  | w :: rest, invs, acc =>
    if w.type = .soldier then
      match findNearestInvaderIdx invs w.gridX w.gridZ (some SOLDIER_ENGAGE_RANGE) with
      | none => combatGo rest invs (acc ++ [w])
      | some i =>
        let target := invs.getD i dummyInvader
        let dist := (w.gridX - target.x).natAbs + (w.gridZ - target.z).natAbs
        if dist ≤ 1 then
          let t2 := { target with hp := target.hp - SOLDIER_DAMAGE }
          let t3 := if t2.hp ≤ 0 then { t2 with state := .dead } else t2
          let invs2 := invs.set i t3
          let w2 := { w with hp := w.hp - target.damage }
          if w2.hp ≤ 0 then combatGo rest invs2 acc
          else combatGo rest invs2 (acc ++ [w2])
        else combatGo rest invs (acc ++ [w])
    else combatGo rest invs (acc ++ [w])

/-- `CombatSystem.update`. -/
def CombatSystem.update (walkers : List Walker) (invs : List Invader) :
    List Walker × List Invader :=
  combatGo walkers invs []

def TOWER_RANGE : Nat := 6
def TOWER_DAMAGE : Int := 3

/-- The tower-attack loop of `Game.simulationTick`: each tower fires once at
the nearest live invader in range. -/
def towerPhase (towers : List Pos) (invs : List Invader) : List Invader :=
  towers.foldl
    (fun invs1 t =>
      match findNearestInvaderIdx invs1 t.1 t.2 (some TOWER_RANGE) with
      | some i => invs1.set i (damageInvader (invs1.getD i dummyInvader) TOWER_DAMAGE)
      | none => invs1)
    invs

def STARTING_GOLD : Int := 500
def FARM_FOOD_RATE : ℚ := 4
def FOOD_PER_POP : ℚ := 1 / 2
def TAX_RATE : Int := 2
def MAX_POP_PER_HOUSE : Int := 10
def GROWTH_RATE : Int := 3
def WELL_SPAWN_INTERVAL : Int := 4
def MARKET_SPAWN_INTERVAL : Int := 4
def BARRACKS_SPAWN_INTERVAL : Int := 6
def FARM_SPAWN_INTERVAL : Int := 5

/-- Game.ts `ResourceState`. -/
structure ResourceState where
  gold : Int
  food : ℚ
  population : Int
  maxPopulation : Int
deriving DecidableEq

/-- Game.ts `ScoreState`. -/
structure ScoreState where
  peakPopulation : Int
  wavesSurvived : Int
  totalGoldEarned : Int
deriving DecidableEq

/-- The simulation-relevant mutable state of `Game` (camera, HUD, input and
other DOM/rendering state omitted). -/
structure GameState where
  grid : Grid
  placedBuildings : List PlacedBuilding
  walkers : List Walker
  invasion : InvasionState
  resources : ResourceState
  score : ScoreState
  tickCount : Int
  reachableRoads : List Pos
  roadsDirty : Bool
  gameOver : Bool

/-- All random draws one simulation tick may consume: `spawnPicks i` is the
index drawn by the i-th walker-spawn call of the tick, `wave` the wave-spawn
draws. -/
structure Draws where
  spawnPicks : Nat → Nat
  wave : WaveDraws

/-- The scan coordinates `(x, z)` of the `GRID_SIZE`-bounded double loops, in
source order (x outer, z inner). -/
def gridPairs : List Pos :=
  (List.range GRID_SIZE).flatMap fun (x : Nat) =>
    (List.range GRID_SIZE).map fun (z : Nat) => ((x : Int), (z : Int))

def tileHasBuilding (o : Option Tile) (ty : BuildingType) : Bool :=
  match o with
  | some t => t.building = some ty
  | none => false

/-- The origin test `(x === 0 || getTile(x-1, z)?.building !== ty) && ...`
used for multi-tile buildings. -/
def isOriginOf (g : Grid) (ty : BuildingType) (x z : Int) : Bool :=
  (decide (x = 0) || ! tileHasBuilding (g.getTile (x - 1) z) ty) &&
    (decide (z = 0) || ! tileHasBuilding (g.getTile x (z - 1)) ty)

/-- One cell of `Game.cleanGhostTiles`: clear the tile if it holds building
data not covered by any placed-building record. -/
def cleanGhostStep (placed : List PlacedBuilding) (g1 : Grid) (p : Pos) : Grid :=
  match g1.getTile p.1 p.2 with
  | none => g1
  | some t =>
    match t.building with
    | none => g1
    | some _ =>
      if placed.any (fun b => b.covers p.1 p.2) then g1
      else g1.setTile p.1 p.2 { t with building := none, buildingHp := 0 }

/-- `Game.cleanGhostTiles`: clear tiles holding building data not covered by
any placed-building record. -/
def cleanGhostTiles (placed : List PlacedBuilding) (g : Grid) : Grid :=
  gridPairs.foldl (cleanGhostStep placed) g

/-- `Game.rebuildRoadNetwork`: ghost-tile cleanup, then the union of road
flood fills from each forum footprint cell; clears the dirty flag. -/
def rebuildRoadNetwork (s : GameState) : GameState :=
  let g := cleanGhostTiles s.placedBuildings s.grid
  let reach :=
    (List.range forumSize).foldl
      (fun acc (dx : Nat) =>
        (List.range forumSize).foldl
          (fun acc2 (dz : Nat) =>
            acc2 ++ floodFillRoads g (s.invasion.forumPos.1 + (dx : Int))
              (s.invasion.forumPos.2 + (dz : Int)))
          acc)
      []
  { s with grid := g, reachableRoads := reach, roadsDirty := false }

/-- systems/SaveSystem.ts `SaveData` (the version-checked persisted snapshot). -/
structure SaveData where
  version : Int
  timestamp : Int
  grid : List (List TileData)
  resources : ResourceState
  score : ScoreState
  tickCount : Int
  waveNumber : Int
  ticksUntilNextWave : Int

def SAVE_VERSION : Int := 1

/-- `Game.doSave` composed with `SaveSystem.save`: build the snapshot record
(the localStorage write is I/O and omitted). -/
def Game.doSave (s : GameState) (timestamp : Int) : SaveData :=
  ⟨SAVE_VERSION, timestamp, s.grid.toJSON, s.resources, s.score, s.tickCount,
    s.invasion.waveNumber, s.invasion.ticksUntilNextWave⟩

/-- The forum-origin scan of `Game.loadFromSave`; the last matching origin in
scan order wins, and the constructor default `(0, 0)` stands if none matches. -/
def findForumPos (g : Grid) : Pos :=
  gridPairs.foldl
    (fun acc p =>
      if tileHasBuilding (g.getTile p.1 p.2) .forum && isOriginOf g .forum p.1 p.2 then p
      else acc)
    (0, 0)

/-- One step of the placed-building rebuild scan of `Game.loadFromSave`. -/
def rebuildStep (g : Grid) (acc : List Pos × List PlacedBuilding) (p : Pos) :
    List Pos × List PlacedBuilding :=
  match g.getTile p.1 p.2 with
  | none => acc
  | some t =>
    match t.building with
    | none => acc
    | some ty =>
      if p ∈ acc.1 then acc
      else
        if 1 < (BUILDINGS ty).size then
          if isOriginOf g ty p.1 p.2 then
            let visited :=
              (List.range (BUILDINGS ty).size).foldl
                (fun v1 (dx : Nat) =>
                  (List.range (BUILDINGS ty).size).foldl
                    (fun v2 (dz : Nat) => v2 ++ [(p.1 + (dx : Int), p.2 + (dz : Int))])
                    v1)
                acc.1
            (visited, acc.2 ++ [⟨ty, p.1, p.2⟩])
          else acc
        else (acc.1, acc.2 ++ [⟨ty, p.1, p.2⟩])

/-- The placed-building records `Game.loadFromSave` rebuilds from grid state. -/
def rebuildPlacedBuildings (g : Grid) : List PlacedBuilding :=
  (gridPairs.foldl (rebuildStep g) ([], [])).2

/-- `Game.loadFromSave`: reconstruct the full simulation state from a
snapshot (mesh rebuilding omitted; walkers and invaders are not persisted and
restart empty, as in the source). -/
def Game.loadFromSave (sd : SaveData) : GameState :=
  let g := Grid.fromJSON sd.grid
  rebuildRoadNetwork
    { grid := g
      placedBuildings := rebuildPlacedBuildings g
      walkers := []
      invasion :=
        { invaders := []
          waveNumber := sd.waveNumber
          ticksUntilNextWave := sd.ticksUntilNextWave
          forumPos := findForumPos g
          warningActive := false
          activeWave := false }
      resources := sd.resources
      score := sd.score
      tickCount := sd.tickCount
      reachableRoads := []
      roadsDirty := true
      gameOver := false }

/-- Result of the single grid scan at the top of `Game.simulationTick`. -/
structure ScanResult where
  grid : Grid
  foodProduction : ℚ
  wells : List Pos
  markets : List Pos
  barracks : List Pos
  farms : List Pos
  towers : List Pos

/-- The per-tile timer aging of the scan: decrement each positive service
countdown and refresh the boolean flags. -/
def ageTile (t : Tile) : Tile :=
  let wt := if 0 < t.waterTimer then t.waterTimer - 1 else t.waterTimer
  let ft := if 0 < t.foodTimer then t.foodTimer - 1 else t.foodTimer
  { t with
    waterTimer := wt
    foodTimer := ft
    hasWater := decide (0 < wt)
    hasFood := decide (0 < ft) }

/-- One cell of the scan: age the two service countdowns, refresh the service
flags, and collect active producer/military buildings. -/
def scanStep (reach : List Pos) (acc : ScanResult) (p : Pos) : ScanResult :=
  match acc.grid.getTile p.1 p.2 with
  | none => acc
  | some t =>
    let g2 := acc.grid.setTile p.1 p.2 (ageTile t)
    let acc1 := { acc with grid := g2 }
    let acc2 :=
      if decide (t.building = some .farm) && isOriginOf g2 .farm p.1 p.2 &&
          isBuildingConnected p.1 p.2 (BUILDINGS .farm).size reach then
        { acc1 with
          foodProduction := acc1.foodProduction + FARM_FOOD_RATE
          farms := acc1.farms ++ [p] }
      else acc1
    let acc3 :=
      if decide (t.building = some .well) && isBuildingConnected p.1 p.2 1 reach then
        { acc2 with wells := acc2.wells ++ [p] }
      else acc2
    let acc4 :=
      if decide (t.building = some .market) && isBuildingConnected p.1 p.2 1 reach then
        { acc3 with markets := acc3.markets ++ [p] }
      else acc3
    let acc5 :=
      if decide (t.building = some .tower) then { acc4 with towers := acc4.towers ++ [p] }
      else acc4
    if decide (t.building = some .barracks) && isOriginOf g2 .barracks p.1 p.2 then
      { acc5 with barracks := acc5.barracks ++ [p] }
    else acc5

/-- One guarded spawn loop of `Game.simulationTick`: for every source
building position, when the cadence guard `C` holds, call
`WalkerSystem.spawn` and advance the random-draw counter. -/
def spawnLoop (g : Grid) (ty : WalkerType) (size : Nat) (C : Prop) [Decidable C]
    (picks : Nat → Nat) (ps : List Pos) (acc : List Walker × Nat) :
    List Walker × Nat :=
  ps.foldl
    (fun a p =>
      if C then (WalkerSystem.spawn a.1 ty p.1 p.2 g size (picks a.2), a.2 + 1)
      else a)
    acc

/-- The walker-spawn loops of `Game.simulationTick`, in source order:
wells on their cadence, then markets — additionally gated on a positive food
stock — then barracks, then farms. -/
def spawnPhase (g : Grid) (tickCount : Int) (food : ℚ)
    (wells markets barracks farms : List Pos) (walkers : List Walker)
    (picks : Nat → Nat) : List Walker :=
  (spawnLoop g .farmer (BUILDINGS .farm).size (tickCount % FARM_SPAWN_INTERVAL = 0)
    picks farms
    (spawnLoop g .soldier (BUILDINGS .barracks).size
      (tickCount % BARRACKS_SPAWN_INTERVAL = 0) picks barracks
      (spawnLoop g .food 1 (tickCount % MARKET_SPAWN_INTERVAL = 0 ∧ 0 < food)
        picks markets
        (spawnLoop g .water 1 (tickCount % WELL_SPAWN_INTERVAL = 0) picks wells
          (walkers, 0))))).1

/-- The housing-capacity scan of `Game.simulationTick`: houses with both
service flags set. -/
def countServicedHouses (g : Grid) : Nat :=
  gridPairs.foldl
    (fun n p =>
      match g.getTile p.1 p.2 with
      | some t =>
        if decide (t.building = some .house) && t.hasWater && t.hasFood then n + 1 else n
      | none => n)
    0

/-- The population-adjustment arithmetic of `Game.simulationTick`. -/
def adjustPopulation (pop maxPop : Int) (food : ℚ) : Int :=
  if maxPop < pop then max maxPop (pop - GROWTH_RATE)
  else if food ≤ 0 ∧ 0 < pop then max 0 (pop - GROWTH_RATE)
  else if 0 < food ∧ pop < maxPop then min (pop + GROWTH_RATE) maxPop
  else pop

/-- The head of `Game.simulationTick`: bump the tick counter, then the lazy
road-network recompute when the dirty flag is set. -/
def tickStage1 (s : GameState) : GameState :=
  if s.roadsDirty then rebuildRoadNetwork { s with tickCount := s.tickCount + 1 }
  else { s with tickCount := s.tickCount + 1 }

/-- The body of `Game.simulationTick` after the counter bump and lazy road
recompute (HUD, sounds, damage tinting, rubble, build-menu counts and the
auto-save timer are I/O-only and omitted).  A capital-destroyed signal from
the invasion tick sets the terminal game-over flag and returns early, exactly
as the source's `return`. -/
def simulationTickBody (s1 : GameState) (d : Draws) : GameState :=
    let tick1 := s1.tickCount
    let scan := gridPairs.foldl (scanStep s1.reachableRoads)
      ⟨s1.grid, 0, [], [], [], [], []⟩
    let food1 := s1.resources.food + scan.foodProduction -
      (s1.resources.population : ℚ) * FOOD_PER_POP
    let res1 := { s1.resources with food := food1 }
    let walkers1 := spawnPhase scan.grid tick1 food1 scan.wells scan.markets
      scan.barracks scan.farms s1.walkers d.spawnPicks
    let walkers2 := WalkerSystem.tick walkers1
    let invTick := InvasionSystem.tick s1.invasion scan.grid d.wave
    let st1 := invTick.1
    let forumDown := match invTick.2.2 with
      | some r => r.forumDestroyed
      | none => false
    let destroyed := match invTick.2.2 with
      | some r => r.buildingsDestroyed
      | none => []
    if forumDown then
      { s1 with
        grid := invTick.2.1
        walkers := walkers2
        invasion := st1
        resources := res1
        gameOver := true }
    else
      let pg := destroyed.foldl
        (fun (pg : List PlacedBuilding × Grid) ev =>
          BuildingSystem.removeBuildingAt pg.1 pg.2 ev.1 ev.2.1)
        (s1.placedBuildings, invTick.2.1)
      let dirty2 := if destroyed.isEmpty then s1.roadsDirty else true
      let afterCombat := CombatSystem.update walkers2 st1.invaders
      let invs2 := towerPhase scan.towers afterCombat.2
      let maxPop := MAX_POP_PER_HOUSE * (countServicedHouses pg.2 : Int)
      let pop1 := adjustPopulation s1.resources.population maxPop food1
      let tax := pop1 * TAX_RATE
      { s1 with
        grid := pg.2
        placedBuildings := pg.1
        walkers := afterCombat.1
        invasion := { st1 with invaders := invs2 }
        resources :=
          { res1 with maxPopulation := maxPop, population := pop1, gold := res1.gold + tax }
        score :=
          { peakPopulation := max s1.score.peakPopulation pop1
            wavesSurvived := st1.waveNumber
            totalGoldEarned := s1.score.totalGoldEarned + tax }
        roadsDirty := dirty2 }

/-- `Game.simulationTick`: one fixed-interval simulation step.  A game-over
state returns unchanged (the source's leading `if (this.gameOver) return`). -/
def simulationTick (s : GameState) (d : Draws) : GameState :=
  if s.gameOver then s else simulationTickBody (tickStage1 s) d

/-- A sequence of simulation ticks with per-tick draw streams. -/
def tickMany (s : GameState) (ds : List Draws) : GameState :=
  ds.foldl simulationTick s

/-! ## Basic grid lemmas -/

theorem Grid.setTile_size (g : Grid) (x z : Int) (t : Tile) :
    (g.setTile x z t).size = g.size := rfl

theorem Grid.modifyTile_size (g : Grid) (x z : Int) (f : Tile → Tile) :
    (g.modifyTile x z f).size = g.size := by
  cases h : g.getTile x z <;> simp [Grid.modifyTile, h, Grid.setTile]

theorem Grid.modifyTile_isInBounds (g : Grid) (x z : Int) (f : Tile → Tile)
    (a b : Int) : (g.modifyTile x z f).isInBounds a b = g.isInBounds a b := by
  simp [Grid.isInBounds, Grid.modifyTile_size]

theorem Grid.setTile_tiles (g : Grid) (x z : Int) (t : Tile) (a b : Int) :
    (g.setTile x z t).tiles a b = if a = x ∧ b = z then t else g.tiles a b := rfl

theorem Grid.modifyTile_tiles (g : Grid) (x z : Int) (f : Tile → Tile) (a b : Int) :
    (g.modifyTile x z f).tiles a b =
      if a = x ∧ b = z ∧ g.isInBounds x z = true then f (g.tiles a b)
      else g.tiles a b := by
  by_cases hb : g.isInBounds x z = true
  · have hg : g.getTile x z = some (g.tiles x z) := by simp [Grid.getTile, hb]
    by_cases hab : a = x ∧ b = z
    · obtain ⟨h1, h2⟩ := hab
      subst h1; subst h2
      simp [Grid.modifyTile, hg, Grid.setTile_tiles, hb]
    · simp only [Grid.modifyTile, hg, Grid.setTile_tiles]
      rw [if_neg hab, if_neg (fun h => hab ⟨h.1, h.2.1⟩)]
  · have hg : g.getTile x z = none := by simp [Grid.getTile, hb]
    simp only [Grid.modifyTile, hg]
    rw [if_neg (fun h => hb h.2.2)]

theorem foldl_modifyTile_size (cells : List Pos) (f : Tile → Tile) (g : Grid) :
    (cells.foldl (fun g1 c => g1.modifyTile c.1 c.2 f) g).size = g.size := by
  induction cells generalizing g with
  | nil => rfl
  | cons c cs ih => simp [List.foldl_cons, ih, Grid.modifyTile_size]

theorem foldl_modifyTile_isInBounds (cells : List Pos) (f : Tile → Tile) (g : Grid)
    (a b : Int) :
    (cells.foldl (fun g1 c => g1.modifyTile c.1 c.2 f) g).isInBounds a b =
      g.isInBounds a b := by
  simp [Grid.isInBounds, foldl_modifyTile_size]

theorem foldl_modifyTile_tiles (cells : List Pos) (f : Tile → Tile)
    (hf : ∀ t, f (f t) = f t) (g : Grid) (a b : Int) :
    (cells.foldl (fun g1 c => g1.modifyTile c.1 c.2 f) g).tiles a b =
      if (a, b) ∈ cells ∧ g.isInBounds a b = true then f (g.tiles a b)
      else g.tiles a b := by
  induction cells generalizing g with
  | nil => simp
  | cons c cs ih =>
    obtain ⟨c1, c2⟩ := c
    simp only [List.foldl_cons]
    rw [ih, Grid.modifyTile_isInBounds, Grid.modifyTile_tiles]
    by_cases hib : g.isInBounds a b = true
    · by_cases hc : a = c1 ∧ b = c2
      · obtain ⟨e1, e2⟩ := hc
        subst e1; subst e2
        rw [if_pos (show a = a ∧ b = b ∧ g.isInBounds a b = true from ⟨rfl, rfl, hib⟩)]
        rw [if_pos (show ((a, b) : Pos) ∈ (a, b) :: cs ∧ g.isInBounds a b = true from
          ⟨List.mem_cons_self _ _, hib⟩)]
        by_cases hm : ((a, b) : Pos) ∈ cs
        · rw [if_pos (show ((a, b) : Pos) ∈ cs ∧ g.isInBounds a b = true from ⟨hm, hib⟩),
            hf]
        · rw [if_neg (show ¬(((a, b) : Pos) ∈ cs ∧ g.isInBounds a b = true) from
            fun h => hm h.1)]
      · rw [if_neg (show ¬(a = c1 ∧ b = c2 ∧ g.isInBounds c1 c2 = true) from
          fun h => hc ⟨h.1, h.2.1⟩)]
        by_cases hm : ((a, b) : Pos) ∈ cs
        · rw [if_pos (show ((a, b) : Pos) ∈ cs ∧ g.isInBounds a b = true from ⟨hm, hib⟩)]
          rw [if_pos (show ((a, b) : Pos) ∈ (c1, c2) :: cs ∧ g.isInBounds a b = true from
            ⟨List.mem_cons_of_mem _ hm, hib⟩)]
        · rw [if_neg (show ¬(((a, b) : Pos) ∈ cs ∧ g.isInBounds a b = true) from
            fun h => hm h.1)]
          rw [if_neg (show ¬(((a, b) : Pos) ∈ (c1, c2) :: cs ∧ g.isInBounds a b = true) from
            fun h => Or.elim (List.mem_cons.mp h.1)
              (fun he => hc ⟨(Prod.ext_iff.mp he).1, (Prod.ext_iff.mp he).2⟩) hm)]
    · rw [if_neg (show ¬(((a, b) : Pos) ∈ cs ∧ g.isInBounds a b = true) from
        fun h => hib h.2)]
      rw [if_neg (show ¬(a = c1 ∧ b = c2 ∧ g.isInBounds c1 c2 = true) from
        fun h => hib (by rw [h.1, h.2.1]; exact h.2.2))]
      rw [if_neg (show ¬(((a, b) : Pos) ∈ (c1, c2) :: cs ∧ g.isInBounds a b = true) from
        fun h => hib h.2)]

theorem mem_footprintCells (size : Nat) (x z a b : Int) :
    ((a, b) : Pos) ∈ footprintCells size x z ↔
      ∃ dx : Nat, dx < size ∧ ∃ dz : Nat, dz < size ∧ a = x + dx ∧ b = z + dz := by
  unfold footprintCells
  rw [List.mem_flatMap]
  constructor
  · rintro ⟨dx, hdx, hmem⟩
    rw [List.mem_map] at hmem
    obtain ⟨dz, hdz, heq⟩ := hmem
    rw [List.mem_range] at hdx hdz
    have h1 : x + (dx : Int) = a := congrArg Prod.fst heq
    have h2 : z + (dz : Int) = b := congrArg Prod.snd heq
    exact ⟨dx, hdx, dz, hdz, h1.symm, h2.symm⟩
  · rintro ⟨dx, hdx, dz, hdz, h1, h2⟩
    refine ⟨dx, List.mem_range.mpr hdx, ?_⟩
    rw [List.mem_map]
    exact ⟨dz, List.mem_range.mpr hdz, by rw [← h1, ← h2]⟩

theorem canPlace_iff (g : Grid) (ty : BuildingType) (x z : Int) :
    BuildingSystem.canPlace g ty x z = true ↔
      ∀ dx : Nat, dx < (BUILDINGS ty).size → ∀ dz : Nat, dz < (BUILDINGS ty).size →
        g.isInBounds (x + dx) (z + dz) = true ∧
          (g.tiles (x + dx) (z + dz)).building = none := by
  unfold BuildingSystem.canPlace
  rw [List.all_eq_true]
  constructor
  · intro h dx hdx dz hdz
    have hmem : ((x + dx, z + dz) : Pos) ∈ footprintCells (BUILDINGS ty).size x z :=
      (mem_footprintCells _ _ _ _ _).mpr ⟨dx, hdx, dz, hdz, rfl, rfl⟩
    have h2 := h _ hmem
    simp only [Bool.and_eq_true] at h2
    obtain ⟨hb, hrest⟩ := h2
    refine ⟨hb, ?_⟩
    have hg : g.getTile (x + dx) (z + dz) = some (g.tiles (x + dx) (z + dz)) := by
      simp [Grid.getTile, hb]
    rw [hg] at hrest
    exact Option.isNone_iff_eq_none.mp hrest
  · intro h c hc
    obtain ⟨a, b⟩ := c
    obtain ⟨dx, hdx, dz, hdz, h1, h2⟩ := (mem_footprintCells _ _ _ _ _).mp hc
    subst h1; subst h2
    obtain ⟨hb, hnone⟩ := h dx hdx dz hdz
    have hg : g.getTile (x + dx) (z + dz) = some (g.tiles (x + dx) (z + dz)) := by
      simp [Grid.getTile, hb]
    simp [hb, hg, Option.isNone_iff_eq_none, hnone]

theorem markFootprint_tiles (g : Grid) (ty : BuildingType) (x z a b : Int) :
    (markFootprint g ty x z).tiles a b =
      if ((a, b) : Pos) ∈ footprintCells (BUILDINGS ty).size x z ∧
          g.isInBounds a b = true then
        { g.tiles a b with building := some ty, buildingHp := (BUILDINGS ty).hp }
      else g.tiles a b :=
  foldl_modifyTile_tiles (footprintCells (BUILDINGS ty).size x z)
    (fun t => { t with building := some ty, buildingHp := (BUILDINGS ty).hp })
    (fun _ => rfl) g a b

theorem clearFootprint_tiles (g : Grid) (ty : BuildingType) (x z a b : Int) :
    (clearFootprint g ty x z).tiles a b =
      if ((a, b) : Pos) ∈ footprintCells (BUILDINGS ty).size x z ∧
          g.isInBounds a b = true then
        { g.tiles a b with building := none, buildingHp := 0 }
      else g.tiles a b :=
  foldl_modifyTile_tiles (footprintCells (BUILDINGS ty).size x z)
    (fun t => { t with building := none, buildingHp := 0 })
    (fun _ => rfl) g a b

/-- C1: `place` returns true iff funds are at least the kind's catalog cost
and every footprint cell is in-bounds and unoccupied; on success it deducts
exactly the cost and writes the kind and its catalog max hit points onto
every footprint cell (all other tiles untouched); on failure it returns
false and leaves funds, the grid and the building records unchanged. -/
theorem place_spec (placed : List PlacedBuilding) (g : Grid) (ty : BuildingType)
    (x z gold : Int) (r : PlaceResult)
    (hr : r = BuildingSystem.place placed g ty x z gold) :
    (r.ok = true ↔
      ((BUILDINGS ty).cost ≤ gold ∧
        ∀ dx : Nat, dx < (BUILDINGS ty).size → ∀ dz : Nat, dz < (BUILDINGS ty).size →
          g.isInBounds (x + dx) (z + dz) = true ∧
            (g.tiles (x + dx) (z + dz)).building = none)) ∧
    (r.ok = true →
      r.gold = gold - (BUILDINGS ty).cost ∧
      (∀ dx : Nat, dx < (BUILDINGS ty).size → ∀ dz : Nat, dz < (BUILDINGS ty).size →
        (r.grid.tiles (x + dx) (z + dz)).building = some ty ∧
          (r.grid.tiles (x + dx) (z + dz)).buildingHp = (BUILDINGS ty).hp) ∧
      (∀ a b : Int,
        (¬ ∃ dx : Nat, dx < (BUILDINGS ty).size ∧ ∃ dz : Nat,
          dz < (BUILDINGS ty).size ∧ a = x + dx ∧ b = z + dz) →
        r.grid.tiles a b = g.tiles a b)) ∧
    (r.ok = false → r.gold = gold ∧ r.grid = g ∧ r.placed = placed) := by
  subst hr
  unfold BuildingSystem.place
  by_cases hlt : gold < (BUILDINGS ty).cost
  · rw [if_pos hlt]
    refine ⟨?_, ?_, ?_⟩
    · exact iff_of_false (fun h => Bool.noConfusion h)
        (fun hh => absurd hlt (not_lt.mpr hh.1))
    · intro h
      exact Bool.noConfusion h
    · intro _
      exact ⟨rfl, rfl, rfl⟩
  · rw [if_neg hlt]
    by_cases hcp : BuildingSystem.canPlace g ty x z = true
    · rw [if_neg (not_not_intro hcp)]
      refine ⟨?_, ?_, ?_⟩
      · exact iff_of_true rfl ⟨by omega, (canPlace_iff g ty x z).mp hcp⟩
      · intro _
        refine ⟨rfl, ?_, ?_⟩
        · intro dx hdx dz hdz
          have hmem : ((x + (dx : Int), z + (dz : Int)) : Pos) ∈
              footprintCells (BUILDINGS ty).size x z :=
            (mem_footprintCells _ _ _ _ _).mpr ⟨dx, hdx, dz, hdz, rfl, rfl⟩
          have hb := ((canPlace_iff g ty x z).mp hcp dx hdx dz hdz).1
          show ((markFootprint g ty x z).tiles (x + dx) (z + dz)).building = some ty ∧
            ((markFootprint g ty x z).tiles (x + dx) (z + dz)).buildingHp =
              (BUILDINGS ty).hp
          rw [markFootprint_tiles, if_pos ⟨hmem, hb⟩]
          exact ⟨rfl, rfl⟩
        · intro a b hno
          show (markFootprint g ty x z).tiles a b = g.tiles a b
          rw [markFootprint_tiles,
            if_neg (fun hmem2 => hno
              ((mem_footprintCells (BUILDINGS ty).size x z a b).mp hmem2.1))]
      · intro h
        exact Bool.noConfusion h
    · rw [if_pos hcp]
      refine ⟨?_, ?_, ?_⟩
      · exact iff_of_false (fun h => Bool.noConfusion h)
          (fun hh => hcp ((canPlace_iff g ty x z).mpr hh.2))
      · intro h
        exact Bool.noConfusion h
      · intro _
        exact ⟨rfl, rfl, rfl⟩

/-- Witness for C1 at a concrete input: a house placement on an empty 4×4
grid with 500 gold succeeds and deducts the catalog cost. -/
theorem place_spec_witness :
    (BuildingSystem.place [] (Grid.new 4) .house 1 2 500).ok = true ∧
      (BuildingSystem.place [] (Grid.new 4) .house 1 2 500).gold =
        500 - (BUILDINGS .house).cost := by
  have h := place_spec [] (Grid.new 4) .house 1 2 500 _ rfl
  have hok : (BuildingSystem.place [] (Grid.new 4) .house 1 2 500).ok = true :=
    h.1.mpr ⟨by decide, by decide⟩
  exact ⟨hok, (h.2.1 hok).1⟩

theorem findCoverIdx_eq_none (x z : Int) (l : List PlacedBuilding)
    (h : ∀ b ∈ l, b.covers x z = false) : findCoverIdx x z l = none := by
  induction l with
  | nil => rfl
  | cons b rest ih =>
    have hb := h b (List.mem_cons_self _ _)
    simp [findCoverIdx, hb, ih fun b2 hb2 => h b2 (List.mem_cons_of_mem _ hb2)]

theorem findCoverIdx_append (x z : Int) (pre : List PlacedBuilding)
    (b : PlacedBuilding) (post : List PlacedBuilding)
    (hpre : ∀ b2 ∈ pre, b2.covers x z = false) (hb : b.covers x z = true) :
    findCoverIdx x z (pre ++ b :: post) = some pre.length := by
  induction pre with
  | nil => simp [findCoverIdx, hb]
  | cons p ps ih =>
    have hp := hpre p (List.mem_cons_self _ _)
    simp [findCoverIdx, hp, ih fun b2 hb2 => hpre b2 (List.mem_cons_of_mem _ hb2)]

theorem getD_append_cons {α : Type} (a d : α) (l1 l2 : List α) :
    (l1 ++ a :: l2).getD l1.length d = a := by
  induction l1 with
  | nil => simp
  | cons h t ih => simpa using ih

theorem eraseIdx_append_cons {α : Type} (a : α) (l1 l2 : List α) :
    (l1 ++ a :: l2).eraseIdx l1.length = l1 ++ l2 := by
  induction l1 with
  | nil => simp [List.eraseIdx]
  | cons h t ih => simp [List.eraseIdx, ih]

/-- C2: `removeBuildingAt` locates the first placed building whose footprint
contains the given cell (by containment, not exact origin match), clears the
building kind and hit points on every in-bounds cell of that building's
footprint (all other tiles untouched) and removes the record; if no placed
building covers the cell, it changes nothing. -/
theorem removeBuildingAt_spec (placed : List PlacedBuilding) (g : Grid)
    (x z : Int) (r : List PlacedBuilding × Grid)
    (hr : r = BuildingSystem.removeBuildingAt placed g x z) :
    ((∀ b ∈ placed, b.covers x z = false) → r = (placed, g)) ∧
    (∀ pre b post, placed = pre ++ b :: post →
      (∀ b2 ∈ pre, b2.covers x z = false) → b.covers x z = true →
      r.1 = pre ++ post ∧
      (∀ dx : Nat, dx < (BUILDINGS b.type).size → ∀ dz : Nat,
        dz < (BUILDINGS b.type).size →
        g.isInBounds (b.x + dx) (b.z + dz) = true →
        (r.2.tiles (b.x + dx) (b.z + dz)).building = none ∧
          (r.2.tiles (b.x + dx) (b.z + dz)).buildingHp = 0) ∧
      (∀ a c : Int,
        (¬ ∃ dx : Nat, dx < (BUILDINGS b.type).size ∧ ∃ dz : Nat,
          dz < (BUILDINGS b.type).size ∧ a = b.x + dx ∧ c = b.z + dz) →
        r.2.tiles a c = g.tiles a c)) := by
  subst hr
  constructor
  · intro hall
    unfold BuildingSystem.removeBuildingAt
    rw [findCoverIdx_eq_none x z placed hall]
  · intro pre b post hsplit hpre hb
    subst hsplit
    have harm : BuildingSystem.removeBuildingAt (pre ++ b :: post) g x z =
        ((pre ++ b :: post).eraseIdx pre.length,
          clearFootprint g b.type b.x b.z) := by
      unfold BuildingSystem.removeBuildingAt
      rw [findCoverIdx_append x z pre b post hpre hb]
      show ((pre ++ b :: post).eraseIdx pre.length,
        clearFootprint g ((pre ++ b :: post).getD pre.length ⟨.road, 0, 0⟩).type
          ((pre ++ b :: post).getD pre.length ⟨.road, 0, 0⟩).x
          ((pre ++ b :: post).getD pre.length ⟨.road, 0, 0⟩).z) = _
      rw [getD_append_cons]
    rw [harm]
    refine ⟨eraseIdx_append_cons b pre post, ?_, ?_⟩
    · intro dx hdx dz hdz hbnd
      have hmem : ((b.x + (dx : Int), b.z + (dz : Int)) : Pos) ∈
          footprintCells (BUILDINGS b.type).size b.x b.z :=
        (mem_footprintCells _ _ _ _ _).mpr ⟨dx, hdx, dz, hdz, rfl, rfl⟩
      show ((clearFootprint g b.type b.x b.z).tiles (b.x + dx) (b.z + dz)).building =
          none ∧
        ((clearFootprint g b.type b.x b.z).tiles (b.x + dx) (b.z + dz)).buildingHp = 0
      rw [clearFootprint_tiles, if_pos ⟨hmem, hbnd⟩]
      exact ⟨rfl, rfl⟩
    · intro a c hno
      show (clearFootprint g b.type b.x b.z).tiles a c = g.tiles a c
      rw [clearFootprint_tiles,
        if_neg (fun h2 => hno
          ((mem_footprintCells (BUILDINGS b.type).size b.x b.z a c).mp h2.1))]

/-- Witness for C2 at a concrete input: removing at the non-origin cell
(2, 2) of a 2×2 farm placed at (1, 1) deletes the record and clears the cell. -/
theorem removeBuildingAt_spec_witness :
    (BuildingSystem.removeBuildingAt [⟨.farm, 1, 1⟩] (Grid.new 8) 2 2).1 = [] ∧
      ((BuildingSystem.removeBuildingAt [⟨.farm, 1, 1⟩] (Grid.new 8) 2 2).2.tiles
        (1 + (1 : Nat)) (1 + (1 : Nat))).building = none := by
  have h := removeBuildingAt_spec [⟨.farm, 1, 1⟩] (Grid.new 8) 2 2 _ rfl
  have h2 := h.2 [] ⟨.farm, 1, 1⟩ [] rfl (by intro b2 hb2; cases hb2) (by decide)
  refine ⟨h2.1, ?_⟩
  exact (h2.2.1 1 (by decide) 1 (by decide) (by decide)).1

theorem invasionTick_fired (st : InvasionState) (g : Grid) (dw : WaveDraws)
    (h1 : st.ticksUntilNextWave ≤ 1) :
    (InvasionSystem.tick st g dw).1.waveNumber = st.waveNumber + 1 ∧
      (InvasionSystem.tick st g dw).1.ticksUntilNextWave =
        max MIN_WAVE_INTERVAL
          (BASE_WAVE_INTERVAL - (st.waveNumber + 1) * WAVE_ACCELERATION) := by
  have hf : decide (st.ticksUntilNextWave - 1 ≤ 0) = true :=
    decide_eq_true (by omega)
  unfold InvasionSystem.tick
  dsimp only
  rw [hf]
  exact ⟨rfl, rfl⟩

/-- C5: the countdown set when wave w = `st.waveNumber + 1` fires equals
max(12, 25 − w); it is at least the floor 12 (so never negative), strictly
below the 30-tick first-wave delay, non-increasing from one wave to the next,
and decreases by exactly 1 while above the floor. -/
theorem wave_schedule_spec (st st2 : InvasionState) (g g2 : Grid)
    (dw dw2 : WaveDraws) (h1 : st.ticksUntilNextWave ≤ 1)
    (hw : 0 ≤ st.waveNumber) (h2 : st2.ticksUntilNextWave ≤ 1)
    (hw2 : st2.waveNumber = st.waveNumber + 1) :
    (InvasionSystem.tick st g dw).1.waveNumber = st.waveNumber + 1 ∧
    (InvasionSystem.tick st g dw).1.ticksUntilNextWave =
      max 12 (25 - (st.waveNumber + 1)) ∧
    12 ≤ (InvasionSystem.tick st g dw).1.ticksUntilNextWave ∧
    (InvasionSystem.tick st g dw).1.ticksUntilNextWave < FIRST_WAVE_DELAY ∧
    (InvasionSystem.tick st2 g2 dw2).1.ticksUntilNextWave ≤
      (InvasionSystem.tick st g dw).1.ticksUntilNextWave ∧
    (12 < (InvasionSystem.tick st g dw).1.ticksUntilNextWave →
      (InvasionSystem.tick st2 g2 dw2).1.ticksUntilNextWave =
        (InvasionSystem.tick st g dw).1.ticksUntilNextWave - 1) := by
  obtain ⟨ha1, ha2⟩ := invasionTick_fired st g dw h1
  obtain ⟨hb1, hb2⟩ := invasionTick_fired st2 g2 dw2 h2
  rw [ha2, hb2, hw2]
  unfold MIN_WAVE_INTERVAL BASE_WAVE_INTERVAL WAVE_ACCELERATION FIRST_WAVE_DELAY
  refine ⟨ha1, by omega, by omega, by omega, by omega, by omega⟩

/-- Witness for C5: firing wave 1 from the initial schedule state (waveNumber
0, countdown forced to 1) against firing wave 2. -/
theorem wave_schedule_spec_witness :
    (InvasionSystem.tick ⟨[], 0, 1, (0, 0), false, false⟩ (Grid.new 2)
        ⟨0, fun _ => 0⟩).1.waveNumber = 0 + 1 := by
  have h := wave_schedule_spec ⟨[], 0, 1, (0, 0), false, false⟩
    ⟨[], 1, 1, (0, 0), false, false⟩ (Grid.new 2) (Grid.new 2)
    ⟨0, fun _ => 0⟩ ⟨0, fun _ => 0⟩ (by decide) (by decide) (by decide) (by decide)
  exact h.1

theorem Invader.applyPath_hp (inv : Invader) (p : List Pos) :
    (inv.applyPath p).hp = inv.hp := by
  unfold Invader.applyPath
  split <;> rfl

theorem Invader.applyPath_maxHp (inv : Invader) (p : List Pos) :
    (inv.applyPath p).maxHp = inv.maxHp := by
  unfold Invader.applyPath
  split <;> rfl

theorem Invader.applyPath_damage (inv : Invader) (p : List Pos) :
    (inv.applyPath p).damage = inv.damage := by
  unfold Invader.applyPath
  split <;> rfl

theorem spawnWave_length (g : Grid) (fp : Pos) (w : Int) (e : Nat)
    (offs : Nat → Nat) :
    (spawnWave g fp w e offs).length =
      (Int.floor (BASE_INVADERS + (w : ℚ) * INVADER_SCALING)).toNat := by
  unfold spawnWave
  rw [List.length_map, List.length_range]

theorem spawnWave_mem (g : Grid) (fp : Pos) (w : Int) (e : Nat)
    (offs : Nat → Nat) (inv : Invader) (h : inv ∈ spawnWave g fp w e offs) :
    inv.hp = BARBARIAN_BASE_HP + w * BARBARIAN_HP_SCALING ∧
      inv.maxHp = BARBARIAN_BASE_HP + w * BARBARIAN_HP_SCALING ∧
      inv.damage =
        Int.floor (BARBARIAN_BASE_DAMAGE + (w : ℚ) * BARBARIAN_DAMAGE_SCALING) := by
  unfold spawnWave at h
  rw [List.mem_map] at h
  obtain ⟨i, hi, heq⟩ := h
  subst heq
  unfold computePathFor
  rw [Invader.applyPath_hp, Invader.applyPath_maxHp, Invader.applyPath_damage]
  exact ⟨rfl, rfl, rfl⟩

/-- C6: the wave spawned at wave number w contains floor(1 + 1.5·w) invaders,
each with hit points 8 + 3·w and damage floor(2 + 0.5·w); wave size, hit
points and damage are all non-decreasing in the wave number. -/
theorem spawnWave_spec (g g2 : Grid) (fp fp2 : Pos) (w : Int) (hw : 0 ≤ w)
    (e e2 : Nat) (offs offs2 : Nat → Nat) :
    (spawnWave g fp w e offs).length =
      (Int.floor ((1 : ℚ) + (w : ℚ) * (3 / 2))).toNat ∧
    (∀ inv ∈ spawnWave g fp w e offs,
      inv.hp = 8 + 3 * w ∧ inv.maxHp = 8 + 3 * w ∧
        inv.damage = Int.floor ((2 : ℚ) + (w : ℚ) * (1 / 2))) ∧
    (spawnWave g fp w e offs).length ≤ (spawnWave g2 fp2 (w + 1) e2 offs2).length ∧
    (∀ inv ∈ spawnWave g fp w e offs, ∀ inv2 ∈ spawnWave g2 fp2 (w + 1) e2 offs2,
      inv.hp ≤ inv2.hp ∧ inv.damage ≤ inv2.damage) := by
  have hscale : ((1 : ℚ) + (w : ℚ) * (3 / 2)) ≤ (1 : ℚ) + ((w : Int) + 1 : Int) * (3 / 2) := by
    push_cast
    linarith
  refine ⟨?_, ?_, ?_, ?_⟩
  · rw [spawnWave_length]
    unfold BASE_INVADERS INVADER_SCALING
    rfl
  · intro inv h
    obtain ⟨hh, hm, hd⟩ := spawnWave_mem g fp w e offs inv h
    unfold BARBARIAN_BASE_HP BARBARIAN_HP_SCALING at hh hm
    unfold BARBARIAN_BASE_DAMAGE BARBARIAN_DAMAGE_SCALING at hd
    exact ⟨by omega, by omega, hd⟩
  · rw [spawnWave_length, spawnWave_length]
    exact Int.toNat_le_toNat (Int.floor_le_floor (by
      unfold BASE_INVADERS INVADER_SCALING
      push_cast
      linarith))
  · intro inv h inv2 h2
    obtain ⟨hh, hm, hd⟩ := spawnWave_mem g fp w e offs inv h
    obtain ⟨hh2, hm2, hd2⟩ := spawnWave_mem g2 fp2 (w + 1) e2 offs2 inv2 h2
    constructor
    · rw [hh, hh2]
      unfold BARBARIAN_BASE_HP BARBARIAN_HP_SCALING
      omega
    · rw [hd, hd2]
      exact Int.floor_le_floor (by
        unfold BARBARIAN_BASE_DAMAGE BARBARIAN_DAMAGE_SCALING
        push_cast
        linarith)

/-- Witness for C6 at wave number 0. -/
theorem spawnWave_spec_witness :
    (spawnWave (Grid.new 2) (0, 0) 0 0 (fun _ => 0)).length =
      (Int.floor ((1 : ℚ) + ((0 : Int) : ℚ) * (3 / 2))).toNat := by
  have h := spawnWave_spec (Grid.new 2) (Grid.new 2) (0, 0) (0, 0) 0 (by decide)
    0 0 (fun _ => 0) (fun _ => 0)
  exact h.1

theorem mem_neighbors4 (p c : Pos) :
    c ∈ neighbors4 p ↔ (c.1 - p.1).natAbs + (c.2 - p.2).natAbs = 1 := by
  obtain ⟨cx, cz⟩ := c
  obtain ⟨px, pz⟩ := p
  simp only [neighbors4, NEIGHBORS, List.map_cons, List.map_nil, List.mem_cons,
    List.not_mem_nil, or_false, Prod.mk.injEq]
  omega

theorem roadOrForum_eq_true (o : Option Tile) :
    roadOrForum o = true ↔
      ∃ t, o = some t ∧
        (t.building = some .road ∨ t.building = some .forum) := by
  cases o with
  | none => simp [roadOrForum]
  | some t => simp [roadOrForum]

theorem mem_getRoadNeighbors (g : Grid) (x z : Int) (c : Pos) :
    c ∈ getRoadNeighbors g x z ↔
      ((c.1 - x).natAbs + (c.2 - z).natAbs = 1 ∧
        ∃ t, g.getTile c.1 c.2 = some t ∧
          (t.building = some .road ∨ t.building = some .forum)) := by
  unfold getRoadNeighbors
  rw [List.mem_filter, mem_neighbors4, roadOrForum_eq_true]

theorem getD_mem_of_lt {α : Type} (l : List α) (i : Nat) (d : α)
    (h : i < l.length) : l.getD i d ∈ l := by
  rw [List.getD_eq_getElem l d h]
  exact List.getElem_mem h

/-- C7: at a tick-boundary arrival a non-soldier walker picks its next target
among the current cell's 4-directional road/forum neighbors excluding the
departed cell (every admissible random draw lands in that set and every
member of the set is picked by some draw); when the set is empty but the
departed cell is itself a road/forum neighbor it backtracks there; when the
cell has no road/forum neighbor at all it stays in place. -/
theorem chooseNextTile_spec (g : Grid) (w : Walker) (invs : List Invader)
    (r : Nat) (hsol : ¬ w.type = .soldier) (ns : List Pos)
    (hns : ns = (getRoadNeighbors g w.gridX w.gridZ).filter
      (fun n => decide (¬ (n.1 = w.prevX ∧ n.2 = w.prevZ)))) :
    (∀ c : Pos, c ∈ ns ↔
      ((c.1 - w.gridX).natAbs + (c.2 - w.gridZ).natAbs = 1 ∧
        (∃ t, g.getTile c.1 c.2 = some t ∧
          (t.building = some .road ∨ t.building = some .forum)) ∧
        ¬ (c.1 = w.prevX ∧ c.2 = w.prevZ))) ∧
    (ns ≠ [] → WalkerSystem.chooseNextTile g w invs r ∈ ns) ∧
    (ns ≠ [] → ∀ c ∈ ns, ∃ i, i < ns.length ∧
      WalkerSystem.chooseNextTile g w invs i = c) ∧
    (ns = [] → (w.prevX, w.prevZ) ∈ getRoadNeighbors g w.gridX w.gridZ →
      WalkerSystem.chooseNextTile g w invs r = (w.prevX, w.prevZ)) ∧
    (getRoadNeighbors g w.gridX w.gridZ = [] →
      WalkerSystem.chooseNextTile g w invs r = (w.gridX, w.gridZ)) := by
  subst hns
  refine ⟨?_, ?_, ?_, ?_, ?_⟩
  · intro c
    rw [List.mem_filter, mem_getRoadNeighbors, decide_eq_true_eq, and_assoc]
  · intro hne
    obtain ⟨h0, t0, he⟩ := List.exists_cons_of_ne_nil hne
    unfold WalkerSystem.chooseNextTile
    rw [if_neg hsol]
    dsimp only
    rw [he]
    show (h0 :: t0).getD (r % (h0 :: t0).length) (w.gridX, w.gridZ) ∈ h0 :: t0
    exact getD_mem_of_lt _ _ _ (Nat.mod_lt _ (by simp))
  · intro hne c hc
    obtain ⟨h0, t0, he⟩ := List.exists_cons_of_ne_nil hne
    obtain ⟨i, hi, hgi⟩ := List.mem_iff_getElem.mp hc
    refine ⟨i, hi, ?_⟩
    unfold WalkerSystem.chooseNextTile
    rw [if_neg hsol]
    dsimp only
    rw [he]
    show (h0 :: t0).getD (i % (h0 :: t0).length) (w.gridX, w.gridZ) = c
    rw [← he]
    rw [Nat.mod_eq_of_lt hi, List.getD_eq_getElem _ _ hi, hgi]
  · intro hempty hprev
    have hall := List.ne_nil_of_mem hprev
    obtain ⟨h0, t0, he⟩ := List.exists_cons_of_ne_nil hall
    unfold WalkerSystem.chooseNextTile
    rw [if_neg hsol]
    dsimp only
    rw [hempty, he]
  · intro hall
    have hempty : (getRoadNeighbors g w.gridX w.gridZ).filter
        (fun n => decide (¬ (n.1 = w.prevX ∧ n.2 = w.prevZ))) = [] := by
      rw [hall]
      rfl
    unfold WalkerSystem.chooseNextTile
    rw [if_neg hsol]
    dsimp only
    rw [hempty, hall]

/-- Witness for C7: a water walker standing at (1, 1) on a cross of road
tiles, having arrived from (0, 1). -/
theorem chooseNextTile_spec_witness :
    WalkerSystem.chooseNextTile
      ((((Grid.new 4).modifyTile 1 0 (fun t => { t with building := some .road })).modifyTile
          2 1 (fun t => { t with building := some .road })).modifyTile
        0 1 (fun t => { t with building := some .road }))
      ⟨.water, 1, 1, 1, 1, 0, 1, 30, 15, 1, 0⟩ [] 0 ∈
      ((getRoadNeighbors
        ((((Grid.new 4).modifyTile 1 0 (fun t => { t with building := some .road })).modifyTile
            2 1 (fun t => { t with building := some .road })).modifyTile
          0 1 (fun t => { t with building := some .road })) 1 1).filter
        (fun n => decide (¬ (n.1 = (0 : Int) ∧ n.2 = (1 : Int))))) := by
  have h := chooseNextTile_spec
    ((((Grid.new 4).modifyTile 1 0 (fun t => { t with building := some .road })).modifyTile
        2 1 (fun t => { t with building := some .road })).modifyTile
      0 1 (fun t => { t with building := some .road }))
    ⟨.water, 1, 1, 1, 1, 0, 1, 30, 15, 1, 0⟩ [] 0 (by decide) _ rfl
  exact h.2.1 (by decide)

theorem adjustPopulation_bounds (pop maxPop : Int) (food : ℚ) (hp : 0 ≤ pop)
    (hm : 0 ≤ maxPop) :
    0 ≤ adjustPopulation pop maxPop food ∧
      pop - 3 ≤ adjustPopulation pop maxPop food ∧
      adjustPopulation pop maxPop food ≤ pop + 3 ∧
      (pop ≤ maxPop → adjustPopulation pop maxPop food ≤ maxPop) ∧
      (maxPop < pop → maxPop ≤ adjustPopulation pop maxPop food) := by
  unfold adjustPopulation GROWTH_RATE
  refine ⟨?_, ?_, ?_, ?_, ?_⟩ <;> split_ifs <;> omega

theorem countServicedHouses_nonneg (g : Grid) :
    0 ≤ (MAX_POP_PER_HOUSE * (countServicedHouses g : Int)) := by
  unfold MAX_POP_PER_HOUSE
  exact mul_nonneg (by norm_num) (Int.natCast_nonneg _)

set_option maxRecDepth 4000 in
theorem tickStage1_resources (s : GameState) : (tickStage1 s).resources = s.resources := by
  unfold tickStage1 rebuildRoadNetwork
  split_ifs <;> rfl

theorem simulationTickBody_population (s1 : GameState) (d : Draws) :
    ((simulationTickBody s1 d).resources.population = s1.resources.population ∧
      (simulationTickBody s1 d).resources.maxPopulation =
        s1.resources.maxPopulation) ∨
    (∃ mp fd, 0 ≤ mp ∧
      (simulationTickBody s1 d).resources.maxPopulation = mp ∧
      (simulationTickBody s1 d).resources.population =
        adjustPopulation s1.resources.population mp fd) := by
  unfold simulationTickBody
  dsimp only
  split_ifs with hfd h2
  · exact Or.inl ⟨rfl, rfl⟩
  · exact Or.inr ⟨_, _, countServicedHouses_nonneg _, rfl, rfl⟩
  · exact Or.inr ⟨_, _, countServicedHouses_nonneg _, rfl, rfl⟩

/-- C10: across one simulation tick the population stays non-negative, moves
by at most the fixed rate 3, never grows past the (freshly computed) housing
capacity when it was within capacity, and the over-capacity shrink never
drops below that capacity. -/
theorem population_tick_spec (s : GameState) (d : Draws)
    (hp : 0 ≤ s.resources.population) :
    0 ≤ (simulationTick s d).resources.population ∧
    s.resources.population - 3 ≤ (simulationTick s d).resources.population ∧
    (simulationTick s d).resources.population ≤ s.resources.population + 3 ∧
    (s.resources.population ≤ (simulationTick s d).resources.maxPopulation →
      (simulationTick s d).resources.population ≤
        (simulationTick s d).resources.maxPopulation) ∧
    ((simulationTick s d).resources.maxPopulation < s.resources.population →
      (simulationTick s d).resources.maxPopulation ≤
        (simulationTick s d).resources.population) := by
  unfold simulationTick
  split_ifs with hgo
  · exact ⟨hp, by omega, by omega, fun h => h, fun h => le_of_lt h⟩
  · have hres := tickStage1_resources s
    rcases simulationTickBody_population (tickStage1 s) d with ⟨h1, h2⟩ | ⟨mp, fd, hm, h1, h2⟩
    · rw [h1, h2, hres]
      exact ⟨hp, by omega, by omega, fun h => h, fun h => le_of_lt h⟩
    · rw [h1, h2, hres]
      obtain ⟨b1, b2, b3, b4, b5⟩ :=
        adjustPopulation_bounds s.resources.population mp fd hp hm
      exact ⟨b1, b2, b3, b4, fun h => b5 h⟩

/-- Witness for C10 at a concrete input: the empty initial state with zero
population. -/
theorem population_tick_spec_witness :
    0 ≤ (simulationTick
      ⟨Grid.new 2, [], [], InvasionState.init (0, 0), ⟨500, 0, 0, 0⟩,
        ⟨0, 0, 0⟩, 0, [], false, false⟩ ⟨fun _ => 0, 0, fun _ => 0⟩).resources.population := by
  have h := population_tick_spec
    ⟨Grid.new 2, [], [], InvasionState.init (0, 0), ⟨500, 0, 0, 0⟩,
      ⟨0, 0, 0⟩, 0, [], false, false⟩ ⟨fun _ => 0, 0, fun _ => 0⟩ (by decide)
  exact h.1

theorem spawn_decomp (ws : List Walker) (ty : WalkerType) (x z : Int) (g : Grid)
    (size : Nat) (r : Nat) :
    ∃ new, WalkerSystem.spawn ws ty x z g size r = ws ++ new ∧
      ∀ w ∈ new, w.type = ty ∧ w.homeX = x ∧ w.homeZ = z := by
  unfold WalkerSystem.spawn
  dsimp only
  cases hr : getAdjacentRoadTiles g x z size with
  | cons a t =>
    refine ⟨[_], rfl, ?_⟩
    intro w hw
    rw [List.mem_singleton] at hw
    subst hw
    exact ⟨rfl, rfl, rfl⟩
  | nil =>
    split_ifs with hs
    · refine ⟨[_], rfl, ?_⟩
      intro w hw
      rw [List.mem_singleton] at hw
      subst hw
      exact ⟨rfl, rfl, rfl⟩
    · exact ⟨[], (List.append_nil ws).symm, by simp⟩

theorem spawn_mem_new (ws : List Walker) (ty : WalkerType) (x z : Int) (g : Grid)
    (size : Nat) (r : Nat) (hroads : getAdjacentRoadTiles g x z size ≠ []) :
    ∃ w ∈ WalkerSystem.spawn ws ty x z g size r,
      w.type = ty ∧ w.homeX = x ∧ w.homeZ = z := by
  unfold WalkerSystem.spawn
  dsimp only
  obtain ⟨a, t, he⟩ := List.exists_cons_of_ne_nil hroads
  rw [he]
  exact ⟨_, List.mem_append_right _ (List.mem_singleton_self _), rfl, rfl, rfl⟩

theorem spawnLoop_decomp (g : Grid) (ty : WalkerType) (size : Nat) (C : Prop)
    [Decidable C] (picks : Nat → Nat) (ps : List Pos) (acc : List Walker × Nat) :
    ∃ new n2, spawnLoop g ty size C picks ps acc = (acc.1 ++ new, n2) ∧
      ∀ w ∈ new, w.type = ty := by
  induction ps generalizing acc with
  | nil => exact ⟨[], acc.2, by simp [spawnLoop], by simp⟩
  | cons p pt ih =>
    by_cases hC : C
    · obtain ⟨n1, h1, ht1⟩ := spawn_decomp acc.1 ty p.1 p.2 g size (picks acc.2)
      obtain ⟨n2, k2, h2, ht2⟩ :=
        ih (WalkerSystem.spawn acc.1 ty p.1 p.2 g size (picks acc.2), acc.2 + 1)
      refine ⟨n1 ++ n2, k2, ?_, ?_⟩
      · show spawnLoop g ty size C picks pt
          (if C then (WalkerSystem.spawn acc.1 ty p.1 p.2 g size (picks acc.2), acc.2 + 1)
           else acc) = _
        rw [if_pos hC, h2, h1, List.append_assoc]
      · intro w hw
        rcases List.mem_append.mp hw with h | h
        · exact (ht1 w h).1
        · exact ht2 w h
    · obtain ⟨n2, k2, h2, ht2⟩ := ih acc
      refine ⟨n2, k2, ?_, ht2⟩
      show spawnLoop g ty size C picks pt
        (if C then (WalkerSystem.spawn acc.1 ty p.1 p.2 g size (picks acc.2), acc.2 + 1)
         else acc) = _
      rw [if_neg hC, h2]

theorem spawnLoop_id (g : Grid) (ty : WalkerType) (size : Nat) (C : Prop)
    [Decidable C] (picks : Nat → Nat) (ps : List Pos) (acc : List Walker × Nat)
    (hC : ¬ C) : spawnLoop g ty size C picks ps acc = acc := by
  induction ps generalizing acc with
  | nil => rfl
  | cons p pt ih =>
    show spawnLoop g ty size C picks pt
      (if C then (WalkerSystem.spawn acc.1 ty p.1 p.2 g size (picks acc.2), acc.2 + 1)
       else acc) = _
    rw [if_neg hC, ih]

theorem spawnLoop_mem (g : Grid) (ty : WalkerType) (size : Nat) (C : Prop)
    [Decidable C] (picks : Nat → Nat) (ps : List Pos) (acc : List Walker × Nat)
    (wp : Pos) (hC : C) (hwp : wp ∈ ps)
    (hroads : getAdjacentRoadTiles g wp.1 wp.2 size ≠ []) :
    ∃ w ∈ (spawnLoop g ty size C picks ps acc).1,
      w.type = ty ∧ w.homeX = wp.1 ∧ w.homeZ = wp.2 := by
  induction ps generalizing acc with
  | nil => cases hwp
  | cons p pt ih =>
    rcases List.mem_cons.mp hwp with he | hm
    · subst he
      obtain ⟨w0, hw0, hprops⟩ :=
        spawn_mem_new acc.1 ty wp.1 wp.2 g size (picks acc.2) hroads
      obtain ⟨new, n2, hdec, -⟩ := spawnLoop_decomp g ty size C picks pt
        (WalkerSystem.spawn acc.1 ty wp.1 wp.2 g size (picks acc.2), acc.2 + 1)
      refine ⟨w0, ?_, hprops⟩
      show w0 ∈ (spawnLoop g ty size C picks pt
        (if C then (WalkerSystem.spawn acc.1 ty wp.1 wp.2 g size (picks acc.2), acc.2 + 1)
         else acc)).1
      rw [if_pos hC, hdec]
      exact List.mem_append_left _ hw0
    · by_cases hCp : C
      · have := ih (WalkerSystem.spawn acc.1 ty p.1 p.2 g size (picks acc.2), acc.2 + 1) hm
        obtain ⟨w0, hw0, hprops⟩ := this
        refine ⟨w0, ?_, hprops⟩
        show w0 ∈ (spawnLoop g ty size C picks pt
          (if C then (WalkerSystem.spawn acc.1 ty p.1 p.2 g size (picks acc.2), acc.2 + 1)
           else acc)).1
        rw [if_pos hCp]
        exact hw0
      · exact absurd hC hCp

/-- C9: in the spawn loops of the simulation tick, a connected market spawns
a food walker only when the food stock is strictly positive (no new food
walker otherwise), while the water walkers spawned by connected wells are
unaffected by the food stock, and every well on its cadence with an adjacent
road does spawn a water walker. -/
theorem spawn_gating_spec (g : Grid) (tickCount : Int) (food : ℚ)
    (wells markets barracks farms : List Pos) (walkers : List Walker)
    (picks : Nat → Nat) :
    (food ≤ 0 →
      ∀ w ∈ spawnPhase g tickCount food wells markets barracks farms walkers picks,
        w.type = .food → w ∈ walkers) ∧
    (∀ food2 : ℚ,
      (spawnPhase g tickCount food wells markets barracks farms walkers picks).filter
          (fun w => decide (w.type = .water)) =
        (spawnPhase g tickCount food2 wells markets barracks farms walkers picks).filter
          (fun w => decide (w.type = .water))) ∧
    (tickCount % 4 = 0 →
      ∀ wp ∈ wells, getAdjacentRoadTiles g wp.1 wp.2 1 ≠ [] →
        ∃ w ∈ spawnPhase g tickCount food wells markets barracks farms walkers picks,
          w.type = .water ∧ w.homeX = wp.1 ∧ w.homeZ = wp.2) := by
  refine ⟨?_, ?_, ?_⟩
  · intro hfood w hw hwty
    unfold spawnPhase at hw
    rw [spawnLoop_id g .food 1 _ picks markets _
      (fun hand => absurd hand.2 (not_lt.mpr hfood))] at hw
    obtain ⟨nw, k1, hd1, ht1⟩ :=
      spawnLoop_decomp g .water 1 (tickCount % WELL_SPAWN_INTERVAL = 0) picks wells
        (walkers, 0)
    rw [hd1] at hw
    obtain ⟨ns, k3, hd3, ht3⟩ :=
      spawnLoop_decomp g .soldier (BUILDINGS .barracks).size
        (tickCount % BARRACKS_SPAWN_INTERVAL = 0) picks barracks (walkers ++ nw, k1)
    rw [hd3] at hw
    obtain ⟨nf4, k4, hd4, ht4⟩ :=
      spawnLoop_decomp g .farmer (BUILDINGS .farm).size
        (tickCount % FARM_SPAWN_INTERVAL = 0) picks farms ((walkers ++ nw) ++ ns, k3)
    rw [hd4] at hw
    dsimp only at hw
    rcases List.mem_append.mp hw with hw | hw
    · rcases List.mem_append.mp hw with hw | hw
      · rcases List.mem_append.mp hw with hw | hw
        · exact hw
        · rw [ht1 w hw] at hwty
          cases hwty
      · rw [ht3 w hw] at hwty
        cases hwty
    · rw [ht4 w hw] at hwty
      cases hwty
  · intro food2
    unfold spawnPhase
    have hwater : ∀ (fd : ℚ),
        ((spawnLoop g .farmer (BUILDINGS .farm).size
            (tickCount % FARM_SPAWN_INTERVAL = 0) picks farms
            (spawnLoop g .soldier (BUILDINGS .barracks).size
              (tickCount % BARRACKS_SPAWN_INTERVAL = 0) picks barracks
              (spawnLoop g .food 1 (tickCount % MARKET_SPAWN_INTERVAL = 0 ∧ 0 < fd)
                picks markets
                (spawnLoop g .water 1 (tickCount % WELL_SPAWN_INTERVAL = 0) picks wells
                  (walkers, 0))))).1).filter (fun w => decide (w.type = .water)) =
        ((spawnLoop g .water 1 (tickCount % WELL_SPAWN_INTERVAL = 0) picks wells
          (walkers, 0)).1).filter (fun w => decide (w.type = .water)) := by
      intro fd
      obtain ⟨nf, k2, hd2, ht2⟩ :=
        spawnLoop_decomp g .food 1 (tickCount % MARKET_SPAWN_INTERVAL = 0 ∧ 0 < fd)
          picks markets
          (spawnLoop g .water 1 (tickCount % WELL_SPAWN_INTERVAL = 0) picks wells
            (walkers, 0))
      rw [hd2]
      obtain ⟨ns, k3, hd3, ht3⟩ :=
        spawnLoop_decomp g .soldier (BUILDINGS .barracks).size
          (tickCount % BARRACKS_SPAWN_INTERVAL = 0) picks barracks (_, k2)
      rw [hd3]
      obtain ⟨nfr, k4, hd4, ht4⟩ :=
        spawnLoop_decomp g .farmer (BUILDINGS .farm).size
          (tickCount % FARM_SPAWN_INTERVAL = 0) picks farms (_, k3)
      rw [hd4]
      dsimp only
      rw [List.filter_append, List.filter_append, List.filter_append]
      rw [List.filter_eq_nil_iff.mpr (fun w (hw : w ∈ nf) => by rw [ht2 w hw]; decide),
        List.filter_eq_nil_iff.mpr (fun w (hw : w ∈ ns) => by rw [ht3 w hw]; decide),
        List.filter_eq_nil_iff.mpr (fun w (hw : w ∈ nfr) => by rw [ht4 w hw]; decide)]
      simp
    rw [hwater food, hwater food2]
  · intro hcad wp hwp hroads
    unfold spawnPhase
    obtain ⟨w0, hw0, hprops⟩ := spawnLoop_mem g .water 1
      (tickCount % WELL_SPAWN_INTERVAL = 0) picks wells (walkers, 0) wp
      (by unfold WELL_SPAWN_INTERVAL; exact hcad) hwp hroads
    obtain ⟨nf, k2, hd2, -⟩ :=
      spawnLoop_decomp g .food 1 (tickCount % MARKET_SPAWN_INTERVAL = 0 ∧ 0 < food)
        picks markets
        (spawnLoop g .water 1 (tickCount % WELL_SPAWN_INTERVAL = 0) picks wells
          (walkers, 0))
    rw [hd2]
    obtain ⟨ns, k3, hd3, -⟩ :=
      spawnLoop_decomp g .soldier (BUILDINGS .barracks).size
        (tickCount % BARRACKS_SPAWN_INTERVAL = 0) picks barracks (_, k2)
    rw [hd3]
    obtain ⟨nfr, k4, hd4, -⟩ :=
      spawnLoop_decomp g .farmer (BUILDINGS .farm).size
        (tickCount % FARM_SPAWN_INTERVAL = 0) picks farms (_, k3)
    rw [hd4]
    dsimp only
    exact ⟨w0, List.mem_append_left _ (List.mem_append_left _
      (List.mem_append_left _ hw0)), hprops⟩

/-- Witness for C9: a single well at (1, 1) with a road at (1, 0), on the
spawn cadence (tick 4), with zero food. -/
theorem spawn_gating_spec_witness :
    ∃ w ∈ spawnPhase
      ((Grid.new 4).modifyTile 1 0 (fun t => { t with building := some .road }))
      4 0 [(1, 1)] [] [] [] [] (fun _ => 0),
      w.type = .water ∧ w.homeX = 1 ∧ w.homeZ = 1 := by
  have h := spawn_gating_spec
    ((Grid.new 4).modifyTile 1 0 (fun t => { t with building := some .road }))
    4 0 [(1, 1)] [] [] [] [] (fun _ => 0)
  exact h.2.2 (by decide) (1, 1) (by decide) (by decide)

theorem Grid.getTile_setTile (g : Grid) (x z : Int) (t : Tile) (a b : Int) :
    (g.setTile x z t).getTile a b =
      if a = x ∧ b = z ∧ g.isInBounds a b = true then some t
      else g.getTile a b := by
  have hbd : (g.setTile x z t).isInBounds a b = g.isInBounds a b := rfl
  by_cases hb : g.isInBounds a b = true
  · by_cases hab : a = x ∧ b = z
    · obtain ⟨h1, h2⟩ := hab
      subst h1; subst h2
      simp [Grid.getTile, hbd, hb, Grid.setTile_tiles]
    · simp only [Grid.getTile, hbd, hb, if_true, Grid.setTile_tiles]
      rw [if_neg hab, if_neg (fun h => hab ⟨h.1, h.2.1⟩)]
  · have h1 : (g.setTile x z t).getTile a b = none := by
      unfold Grid.getTile
      rw [show (g.setTile x z t).isInBounds a b = g.isInBounds a b from rfl]
      rw [if_neg hb]
    have h2 : g.getTile a b = none := by
      unfold Grid.getTile
      rw [if_neg hb]
    rw [h1, h2, if_neg (fun h => hb h.2.2)]

theorem scanStep_grid (reach : List Pos) (acc : ScanResult) (p : Pos) :
    (scanStep reach acc p).grid =
      match acc.grid.getTile p.1 p.2 with
      | none => acc.grid
      | some t0 => acc.grid.setTile p.1 p.2 (ageTile t0) := by
  unfold scanStep
  cases hg : acc.grid.getTile p.1 p.2 with
  | none => rfl
  | some t0 =>
    dsimp only
    split_ifs <;> rfl

theorem scanStep_grid_building (reach : List Pos) (acc : ScanResult) (p : Pos)
    (a b : Int) (t : Tile) (ht : acc.grid.getTile a b = some t) :
    ∃ t2, (scanStep reach acc p).grid.getTile a b = some t2 ∧
      t2.building = t.building ∧ t2.buildingHp = t.buildingHp := by
  rw [scanStep_grid]
  cases hg : acc.grid.getTile p.1 p.2 with
  | none => exact ⟨t, ht, rfl, rfl⟩
  | some t0 =>
    rw [Grid.getTile_setTile]
    by_cases hc : a = p.1 ∧ b = p.2 ∧ acc.grid.isInBounds a b = true
    · rw [if_pos hc]
      obtain ⟨e1, e2, -⟩ := hc
      rw [e1, e2, hg] at ht
      have heq : t0 = t := Option.some.inj ht
      subst heq
      exact ⟨ageTile t0, rfl, rfl, rfl⟩
    · rw [if_neg hc]
      exact ⟨t, ht, rfl, rfl⟩

theorem scanFold_building (reach : List Pos) (ps : List Pos) (acc : ScanResult)
    (a b : Int) (t : Tile) (ht : acc.grid.getTile a b = some t) :
    ∃ t2, ((ps.foldl (scanStep reach) acc).grid).getTile a b = some t2 ∧
      t2.building = t.building ∧ t2.buildingHp = t.buildingHp := by
  induction ps generalizing acc t with
  | nil => exact ⟨t, ht, rfl, rfl⟩
  | cons p pt ih =>
    obtain ⟨t1, h1, hb1, hp1⟩ := scanStep_grid_building reach acc p a b t ht
    obtain ⟨t2, h2, hb2, hp2⟩ := ih (scanStep reach acc p) t1 h1
    exact ⟨t2, h2, hb2.trans hb1, hp2.trans hp1⟩

theorem attackBuilding_forum (inv : Invader) (g : Grid) (t : Tile)
    (ht : g.getTile inv.x inv.z = some t) (hb : t.building = some .forum)
    (hhp : t.buildingHp ≤ inv.damage) :
    (attackBuilding inv g).2 = some .forumDown := by
  unfold attackBuilding
  rw [ht]
  dsimp only
  rw [hb]
  dsimp only
  rw [if_pos (show t.buildingHp - inv.damage ≤ 0 by omega),
    if_pos (rfl : BuildingType.forum = BuildingType.forum)]

theorem attackBuilding_preserves (inv : Invader) (g : Grid) (a b : Int) (t : Tile)
    (hd : 0 ≤ inv.damage) (ht : g.getTile a b = some t) :
    ∃ t2, (attackBuilding inv g).1.getTile a b = some t2 ∧
      t2.building = t.building ∧ t2.buildingHp ≤ t.buildingHp := by
  unfold attackBuilding
  cases hg : g.getTile inv.x inv.z with
  | none => exact ⟨t, ht, rfl, le_refl _⟩
  | some t0 =>
    dsimp only
    cases hb0 : t0.building with
    | none => exact ⟨t, ht, rfl, le_refl _⟩
    | some bty =>
      dsimp only
      have hgoal : ∀ tnew : Tile, tnew.building = t0.building →
          tnew.buildingHp = t0.buildingHp - inv.damage →
          ∃ t2, (g.setTile inv.x inv.z tnew).getTile a b = some t2 ∧
            t2.building = t.building ∧ t2.buildingHp ≤ t.buildingHp := by
        intro tnew hbb hhh
        rw [Grid.getTile_setTile]
        by_cases hc : a = inv.x ∧ b = inv.z ∧ g.isInBounds a b = true
        · rw [if_pos hc]
          obtain ⟨e1, e2, -⟩ := hc
          rw [e1, e2, hg] at ht
          have heq : t0 = t := Option.some.inj ht
          subst heq
          exact ⟨tnew, rfl, hbb, by omega⟩
        · rw [if_neg hc]
          exact ⟨t, ht, rfl, le_refl _⟩
      split_ifs with h1 h2
      · exact hgoal _ (by rw [hb0]) rfl
      · exact hgoal _ (by rw [hb0]) rfl
      · exact hgoal _ (by rw [hb0]) rfl

theorem invAttackGo_keeps_forumDown (forum : Pos) (invs : List Invader)
    (g : Grid) (res : Option InvTickResult) (acc : List Invader)
    (r0 : InvTickResult) (hres : res = some r0) (hfd : r0.forumDestroyed = true) :
    ∃ r, (invAttackGo forum invs g res acc).2.2 = some r ∧
      r.forumDestroyed = true := by
  induction invs generalizing g res acc r0 with
  | nil =>
    subst hres
    exact ⟨r0, rfl, hfd⟩
  | cons i0 rest ih =>
    subst hres
    unfold invAttackGo
    dsimp only
    split_ifs with h1 h2
    · cases hout : (attackBuilding { i0 with attackCooldown := ATTACK_COOLDOWN } g).2 with
      | none => exact ih _ _ _ _ rfl hfd
      | some o =>
        cases o with
        | forumDown => exact ih _ _ _ _ rfl rfl
        | destroyed x z ty => exact ih _ _ _ _ rfl (by simpa using hfd)
        | damaged x z frac => exact ih _ _ _ _ rfl (by simpa using hfd)
    · exact ih _ _ _ _ rfl hfd
    · exact ih _ _ _ _ rfl hfd

theorem invAttackGo_forumDown (forum : Pos) (invs : List Invader) :
    ∀ (g : Grid) (res : Option InvTickResult) (acc : List Invader) (t : Tile)
      (inv : Invader),
      (∀ i ∈ invs, 0 ≤ i.damage) → inv ∈ invs → inv.state = .attacking →
      inv.attackCooldown ≤ 1 → g.getTile inv.x inv.z = some t →
      t.building = some .forum → t.buildingHp ≤ inv.damage →
      ∃ r, (invAttackGo forum invs g res acc).2.2 = some r ∧
        r.forumDestroyed = true := by
  induction invs with
  | nil =>
    intro g res acc t inv hall hmem hatt hcd ht hb hhp
    cases hmem
  | cons i0 rest ih =>
    intro g res acc t inv hall hmem hatt hcd ht hb hhp
    rcases List.mem_cons.mp hmem with he | hm
    · subst he
      unfold invAttackGo
      rw [if_pos hatt]
      dsimp only
      rw [if_pos (show inv.attackCooldown - 1 ≤ 0 by omega)]
      have hout : (attackBuilding { inv with attackCooldown := ATTACK_COOLDOWN } g).2 =
          some .forumDown :=
        attackBuilding_forum _ g t ht hb hhp
      rw [hout]
      exact invAttackGo_keeps_forumDown forum rest _ _ _ _ rfl rfl
    · have hd0 : 0 ≤ i0.damage := hall i0 (List.mem_cons_self _ _)
      have hall2 : ∀ i ∈ rest, 0 ≤ i.damage :=
        fun i hi => hall i (List.mem_cons_of_mem _ hi)
      unfold invAttackGo
      dsimp only
      split_ifs with h1 h2
      · obtain ⟨t2, ht2, hb2, hp2⟩ :=
          attackBuilding_preserves { i0 with attackCooldown := ATTACK_COOLDOWN } g
            inv.x inv.z t hd0 ht
        cases hout : (attackBuilding { i0 with attackCooldown := ATTACK_COOLDOWN } g).2 with
        | none => exact ih _ _ _ t2 inv hall2 hm hatt hcd ht2 (hb2.trans hb) (by omega)
        | some o =>
          cases o with
          | forumDown => exact invAttackGo_keeps_forumDown forum rest _ _ _ _ rfl rfl
          | destroyed x z ty =>
            exact ih _ _ _ t2 inv hall2 hm hatt hcd ht2 (hb2.trans hb) (by omega)
          | damaged x z frac =>
            exact ih _ _ _ t2 inv hall2 hm hatt hcd ht2 (hb2.trans hb) (by omega)
      · exact ih _ _ _ t inv hall2 hm hatt hcd ht hb hhp
      · exact ih _ _ _ t inv hall2 hm hatt hcd ht hb hhp

theorem invasionTick_forumDown (st : InvasionState) (g : Grid) (dw : WaveDraws)
    (hwn : 0 ≤ st.waveNumber) (hall : ∀ i ∈ st.invaders, 0 ≤ i.damage)
    (inv : Invader) (t : Tile) (hmem : inv ∈ st.invaders)
    (hatt : inv.state = .attacking) (hcd : inv.attackCooldown ≤ 1)
    (ht : g.getTile inv.x inv.z = some t) (hb : t.building = some .forum)
    (hhp : t.buildingHp ≤ inv.damage) :
    ∃ r, (InvasionSystem.tick st g dw).2.2 = some r ∧ r.forumDestroyed = true := by
  have hspawn : ∀ i ∈ spawnWave g st.forumPos st.waveNumber dw.edge dw.offs,
      0 ≤ i.damage := by
    intro i hi
    obtain ⟨-, -, hd⟩ := spawnWave_mem g st.forumPos st.waveNumber dw.edge dw.offs i hi
    rw [hd]
    unfold BARBARIAN_BASE_DAMAGE BARBARIAN_DAMAGE_SCALING
    refine Int.le_floor.mpr ?_
    have hc : (0 : ℚ) ≤ (st.waveNumber : ℚ) := by exact_mod_cast hwn
    push_cast
    linarith
  unfold InvasionSystem.tick
  dsimp only
  split_ifs with hfired
  · exact invAttackGo_forumDown st.forumPos _ g none [] t inv
      (fun i hi => (List.mem_append.mp hi).elim (hall i) (hspawn i))
      (List.mem_append_left _ hmem) hatt hcd ht hb hhp
  · exact invAttackGo_forumDown st.forumPos _ g none [] t inv hall hmem hatt
      hcd ht hb hhp

/-- C8: when an attacking invader's cooldown expires this tick on a forum
tile whose remaining hit points are within its damage, the invasion tick
signals capital-destroyed and the simulation tick enters the terminal
game-over state; from then on every simulation tick — singly or iterated —
returns the state (and in particular the resource state) unchanged. -/
theorem capital_destroyed_spec (s : GameState) (d : Draws)
    (hgo : s.gameOver = false) (hrd : s.roadsDirty = false)
    (hwn : 0 ≤ s.invasion.waveNumber)
    (hall : ∀ i ∈ s.invasion.invaders, 0 ≤ i.damage)
    (inv : Invader) (t : Tile) (hmem : inv ∈ s.invasion.invaders)
    (hatt : inv.state = .attacking) (hcd : inv.attackCooldown ≤ 1)
    (ht : s.grid.getTile inv.x inv.z = some t) (hb : t.building = some .forum)
    (hhp : t.buildingHp ≤ inv.damage) :
    (simulationTick s d).gameOver = true ∧
    (∀ s2 : GameState, s2.gameOver = true → ∀ d2, simulationTick s2 d2 = s2) ∧
    (∀ ds : List Draws, tickMany (simulationTick s d) ds = simulationTick s d) := by
  have frozen : ∀ s2 : GameState, s2.gameOver = true →
      ∀ d2, simulationTick s2 d2 = s2 := by
    intro s2 h d2
    unfold simulationTick
    rw [if_pos h]
  have hstage : tickStage1 s = { s with tickCount := s.tickCount + 1 } := by
    unfold tickStage1
    rw [if_neg (by simp [hrd])]
  have hmain : (simulationTick s d).gameOver = true := by
    unfold simulationTick
    rw [if_neg (by simp [hgo]), hstage]
    unfold simulationTickBody
    dsimp only
    obtain ⟨t2, ht2, hb2, hp2⟩ := scanFold_building s.reachableRoads gridPairs
      ⟨s.grid, 0, [], [], [], [], []⟩ inv.x inv.z t ht
    obtain ⟨r, hr, hfd⟩ := invasionTick_forumDown s.invasion _ d.wave hwn hall inv t2
      hmem hatt hcd ht2 (hb2.trans hb) (by omega)
    rw [hr]
    dsimp only
    rw [hfd]
    rfl
  refine ⟨hmain, frozen, ?_⟩
  intro ds
  have hfreeze : ∀ (ds2 : List Draws) (st : GameState), st.gameOver = true →
      tickMany st ds2 = st := by
    intro ds2
    induction ds2 with
    | nil =>
      intro st _
      rfl
    | cons d0 dt ih =>
      intro st h
      show tickMany (simulationTick st d0) dt = st
      rw [frozen st h d0, ih st h]
  exact hfreeze ds _ hmain

/-- Witness for C8: a lone invader attacking the forum tile at (1, 1) that
has a single hit point left. -/
theorem capital_destroyed_spec_witness :
    (simulationTick
      ⟨(Grid.new 4).modifyTile 1 1
          (fun t => { t with building := some .forum, buildingHp := 1 }),
        [], [], ⟨[⟨1, 1, 1, 1, 10, 10, 2, .attacking, 1, [], 0⟩], 0, 5, (1, 1),
          false, false⟩,
        ⟨500, 0, 0, 0⟩, ⟨0, 0, 0⟩, 0, [], false, false⟩
      ⟨fun _ => 0, 0, fun _ => 0⟩).gameOver = true := by
  have h := capital_destroyed_spec
    ⟨(Grid.new 4).modifyTile 1 1
        (fun t => { t with building := some .forum, buildingHp := 1 }),
      [], [], ⟨[⟨1, 1, 1, 1, 10, 10, 2, .attacking, 1, [], 0⟩], 0, 5, (1, 1),
        false, false⟩,
      ⟨500, 0, 0, 0⟩, ⟨0, 0, 0⟩, 0, [], false, false⟩
    ⟨fun _ => 0, 0, fun _ => 0⟩ rfl rfl (by decide) (by decide)
    ⟨1, 1, 1, 1, 10, 10, 2, .attacking, 1, [], 0⟩
    ⟨1, 1, some .forum, 1, false, false, 0, 0⟩
    (by decide) (by decide) (by decide) (by decide) (by decide) (by decide)
  exact h.1

theorem Tile.fromJSON_toJSON (t : Tile) : Tile.fromJSON t.toJSON = t := rfl

theorem Grid.toJSON_length (g : Grid) : (Grid.toJSON g).length = g.size := by
  unfold Grid.toJSON
  rw [List.length_map, List.length_range]

theorem Grid.fromJSON_toJSON_size (g : Grid) :
    (Grid.fromJSON g.toJSON).size = g.size := by
  show g.toJSON.length = g.size
  exact Grid.toJSON_length g

theorem Grid.fromJSON_toJSON_tiles (g : Grid) (x z : Int)
    (hx0 : 0 ≤ x) (hx1 : x < (g.size : Int))
    (hz0 : 0 ≤ z) (hz1 : z < (g.size : Int)) :
    (Grid.fromJSON g.toJSON).tiles x z = g.tiles x z := by
  have hlen : (Grid.toJSON g).length = g.size := Grid.toJSON_length g
  have hxt : x.toNat < g.size := by omega
  have hzt : z.toNat < g.size := by omega
  have hrow : (Grid.toJSON g).getD x.toNat [] =
      (List.range g.size).map
        (fun (zi : Nat) => (g.tiles ((x.toNat : Nat) : Int) ((zi : Nat) : Int)).toJSON) := by
    unfold Grid.toJSON
    rw [List.getD_eq_getElem _ _ (by rw [List.length_map, List.length_range]; exact hxt)]
    rw [List.getElem_map, List.getElem_range]
  unfold Grid.fromJSON
  dsimp only
  rw [if_pos (show 0 ≤ x ∧ x < ((Grid.toJSON g).length : Int) from
    ⟨hx0, by rw [hlen]; exact hx1⟩)]
  rw [hrow, List.length_map, List.length_range]
  rw [if_pos (show 0 ≤ z ∧ z < ((g.size : Nat) : Int) from ⟨hz0, hz1⟩)]
  rw [List.getD_eq_getElem _ _ (by rw [List.length_map, List.length_range]; exact hzt)]
  rw [List.getElem_map, List.getElem_range]
  rw [Tile.fromJSON_toJSON, Int.toNat_of_nonneg hx0, Int.toNat_of_nonneg hz0]

theorem Grid.toJSON_getD (g : Grid) (i : Nat) (h : i < g.size) :
    (Grid.toJSON g).getD i [] =
      (List.range g.size).map
        (fun (zi : Nat) => (g.tiles ((i : Nat) : Int) ((zi : Nat) : Int)).toJSON) := by
  unfold Grid.toJSON
  rw [List.getD_eq_getElem _ _ (by rw [List.length_map, List.length_range]; exact h)]
  rw [List.getElem_map, List.getElem_range]

theorem Grid.fromJSON_toJSON_tiles_oob (g : Grid) (x z : Int)
    (hb : g.isInBounds x z = false) :
    (Grid.fromJSON g.toJSON).tiles x z = Tile.new x z := by
  have hlen : (Grid.toJSON g).length = g.size := Grid.toJSON_length g
  have hbb : ¬ (0 ≤ x ∧ x < (g.size : Int) ∧ 0 ≤ z ∧ z < (g.size : Int)) := by
    rintro ⟨h1, h2, h3, h4⟩
    have ht : g.isInBounds x z = true := by
      simp [Grid.isInBounds, h1, h2, h3, h4]
    rw [hb] at ht
    exact Bool.noConfusion ht
  unfold Grid.fromJSON
  dsimp only
  by_cases hx : 0 ≤ x ∧ x < ((Grid.toJSON g).length : Int)
  · rw [if_pos hx]
    have hxn : 0 ≤ x ∧ x < (g.size : Int) := by rw [hlen] at hx; exact hx
    have hxt : x.toNat < g.size := by omega
    rw [Grid.toJSON_getD g x.toNat hxt, List.length_map, List.length_range]
    have hz : ¬ (0 ≤ z ∧ z < ((g.size : Nat) : Int)) :=
      fun hc => hbb ⟨hxn.1, hxn.2, hc.1, hc.2⟩
    rw [if_neg hz]
  · rw [if_neg hx]

theorem Grid.fromJSON_toJSON_getTile (g : Grid) (x z : Int) :
    (Grid.fromJSON g.toJSON).getTile x z = g.getTile x z := by
  have hbnd : (Grid.fromJSON g.toJSON).isInBounds x z = g.isInBounds x z := by
    unfold Grid.isInBounds
    rw [Grid.fromJSON_toJSON_size]
  by_cases hb : g.isInBounds x z = true
  · have hbb := hb
    simp only [Grid.isInBounds, Bool.and_eq_true, decide_eq_true_eq] at hbb
    obtain ⟨⟨⟨hx0, hx1⟩, hz0⟩, hz1⟩ := hbb
    unfold Grid.getTile
    rw [hbnd, if_pos hb, if_pos hb]
    exact congrArg some (Grid.fromJSON_toJSON_tiles g x z hx0 hx1 hz0 hz1)
  · unfold Grid.getTile
    rw [hbnd, if_neg hb, if_neg hb]

theorem Grid.eq_of_size_tiles {g1 g2 : Grid} (h1 : g1.size = g2.size)
    (h2 : g1.tiles = g2.tiles) : g1 = g2 := by
  cases g1; cases g2; cases h1; cases h2; rfl

/-- On a grid whose out-of-bounds slots hold the fresh-constructor tiles (as
every grid built by the constructor and the in-bounds-checked mutators does),
the JSON round trip is the identity. -/
theorem Grid.fromJSON_toJSON_eq (g : Grid)
    (hext : ∀ x z : Int, g.isInBounds x z = false → g.tiles x z = Tile.new x z) :
    Grid.fromJSON g.toJSON = g := by
  apply Grid.eq_of_size_tiles (Grid.fromJSON_toJSON_size g)
  funext x z
  by_cases hb : g.isInBounds x z = true
  · have hbb := hb
    simp only [Grid.isInBounds, Bool.and_eq_true, decide_eq_true_eq] at hbb
    obtain ⟨⟨⟨hx0, hx1⟩, hz0⟩, hz1⟩ := hbb
    exact Grid.fromJSON_toJSON_tiles g x z hx0 hx1 hz0 hz1
  · have hbf : g.isInBounds x z = false := by
      cases hv : g.isInBounds x z with
      | true => exact absurd hv hb
      | false => rfl
    rw [Grid.fromJSON_toJSON_tiles_oob g x z hbf, hext x z hbf]

theorem isOriginOf_congr (g1 g2 : Grid)
    (h : ∀ x z : Int, g1.getTile x z = g2.getTile x z) :
    ∀ ty x z, isOriginOf g1 ty x z = isOriginOf g2 ty x z := by
  intro ty x z
  unfold isOriginOf
  rw [h, h]

theorem rebuildStep_congr (g1 g2 : Grid)
    (h : ∀ x z : Int, g1.getTile x z = g2.getTile x z) :
    ∀ acc p, rebuildStep g1 acc p = rebuildStep g2 acc p := by
  intro acc p
  unfold rebuildStep
  rw [h p.1 p.2]
  simp only [isOriginOf_congr g1 g2 h]

theorem rebuildPlacedBuildings_congr (g1 g2 : Grid)
    (h : ∀ x z : Int, g1.getTile x z = g2.getTile x z) :
    rebuildPlacedBuildings g1 = rebuildPlacedBuildings g2 := by
  unfold rebuildPlacedBuildings
  rw [show rebuildStep g1 = rebuildStep g2 from
    funext fun acc => funext fun p => rebuildStep_congr g1 g2 h acc p]

/-- When every tile holding building data is covered by some placed-building
record, the ghost-tile cleanup changes nothing. -/
theorem cleanGhostTiles_noop (placed : List PlacedBuilding) (g : Grid)
    (H : ∀ p ∈ gridPairs,
      ((g.getTile p.1 p.2).all fun t =>
        !t.building.isSome || placed.any fun b => b.covers p.1 p.2) = true) :
    cleanGhostTiles placed g = g := by
  unfold cleanGhostTiles
  suffices h : ∀ l : List Pos, (∀ p ∈ l, p ∈ gridPairs) →
      l.foldl (cleanGhostStep placed) g = g from
    h gridPairs (fun p hp => hp)
  intro l
  induction l with
  | nil => intro _; rfl
  | cons p pt ih =>
    intro hsub
    have hstep : cleanGhostStep placed g p = g := by
      have hp := H p (hsub p (List.mem_cons_self p pt))
      unfold cleanGhostStep
      cases hg : g.getTile p.1 p.2 with
      | none => rfl
      | some t =>
        rw [hg] at hp
        dsimp only
        cases hbd : t.building with
        | none => rfl
        | some bty =>
          have hp2 : (!t.building.isSome ||
              placed.any fun b => b.covers p.1 p.2) = true := hp
          simp only [hbd, Option.isSome_some, Bool.not_true, Bool.false_or] at hp2
          dsimp only
          rw [if_pos hp2]
    show List.foldl (cleanGhostStep placed) (cleanGhostStep placed g p) pt = g
    rw [hstep]
    exact ih (fun q hq => hsub q (List.mem_cons_of_mem p hq))

theorem doSave_grid (s : GameState) (ts : Int) :
    (Game.doSave s ts).grid = s.grid.toJSON := rfl

theorem doSave_resources (s : GameState) (ts : Int) :
    (Game.doSave s ts).resources = s.resources := rfl

theorem doSave_score (s : GameState) (ts : Int) :
    (Game.doSave s ts).score = s.score := rfl

theorem doSave_tickCount (s : GameState) (ts : Int) :
    (Game.doSave s ts).tickCount = s.tickCount := rfl

theorem doSave_waveNumber (s : GameState) (ts : Int) :
    (Game.doSave s ts).waveNumber = s.invasion.waveNumber := rfl

theorem doSave_ticksUntilNextWave (s : GameState) (ts : Int) :
    (Game.doSave s ts).ticksUntilNextWave = s.invasion.ticksUntilNextWave := rfl

/-- `rebuildRoadNetwork` written as an explicit constructor application. -/
theorem rebuildRoadNetwork_eq (s : GameState) :
    rebuildRoadNetwork s = GameState.mk
      (cleanGhostTiles s.placedBuildings s.grid)
      s.placedBuildings s.walkers s.invasion s.resources s.score s.tickCount
      ((List.range forumSize).foldl
        (fun acc (dx : Nat) =>
          (List.range forumSize).foldl
            (fun acc2 (dz : Nat) =>
              acc2 ++ floodFillRoads (cleanGhostTiles s.placedBuildings s.grid)
                (s.invasion.forumPos.1 + (dx : Int))
                (s.invasion.forumPos.2 + (dz : Int)))
            acc)
        [])
      false s.gameOver := rfl

/-- On a freshly constructed grid every scanned tile passes any per-tile test
that accepts constructor-fresh tiles. -/
theorem empty_grid_all (n : Nat) (f : Pos → Tile → Bool)
    (hf : ∀ (p : Pos) (x z : Int), f p (Tile.new x z) = true) :
    ∀ p ∈ gridPairs, ((Grid.new n).getTile p.1 p.2).all (f p) = true := by
  intro p _
  unfold Grid.getTile
  by_cases hb : (Grid.new n).isInBounds p.1 p.2 = true
  · rw [if_pos hb]
    exact hf p p.1 p.2
  · rw [if_neg hb]
    rfl

/-- `loadFromSave` written as `rebuildRoadNetwork` of an explicit constructor
application. -/
theorem loadFromSave_eq (sd : SaveData) :
    Game.loadFromSave sd = rebuildRoadNetwork (GameState.mk
      (Grid.fromJSON sd.grid)
      (rebuildPlacedBuildings (Grid.fromJSON sd.grid))
      []
      (InvasionState.mk [] sd.waveNumber sd.ticksUntilNextWave
        (findForumPos (Grid.fromJSON sd.grid)) false false)
      sd.resources sd.score sd.tickCount [] true false) := rfl

/-- C3: the save/load round trip. Given that every tile holding building data
is covered by a rebuildable placed-building record (no ghost tiles, which is
what `loadFromSave`'s `cleanGhostTiles` pass would clear), loading a save of
state `s` restores the grid size, every per-tile field (via `getTile`), the
resource state, the score state, the tick counter, the wave number and the
ticks-until-next-wave exactly. If moreover the pre-save state carries none of
the deliberately unpersisted transients (no live walkers or invaders, no
active warning/wave, game not over), its derived fields (placed-building
records, forum position, road network) agree with what the loader rebuilds,
and the backing array is canonical outside the bounds, then the loaded state
equals `s` outright, so the subsequent tick-by-tick future under any draw
streams is identical. -/
theorem saveLoad_spec (s : GameState) (ts : Int) (L : GameState)
    (hL : L = Game.loadFromSave (Game.doSave s ts))
    (H : ∀ p ∈ gridPairs,
      ((s.grid.getTile p.1 p.2).all fun t =>
        !t.building.isSome ||
          (rebuildPlacedBuildings s.grid).any fun b => b.covers p.1 p.2) = true) :
    (L.grid.size = s.grid.size ∧
      (∀ x z : Int, L.grid.getTile x z = s.grid.getTile x z) ∧
      L.resources = s.resources ∧
      L.score = s.score ∧
      L.tickCount = s.tickCount ∧
      L.invasion.waveNumber = s.invasion.waveNumber ∧
      L.invasion.ticksUntilNextWave = s.invasion.ticksUntilNextWave) ∧
    ((∀ x z : Int, s.grid.isInBounds x z = false → s.grid.tiles x z = Tile.new x z) →
      s.placedBuildings = rebuildPlacedBuildings s.grid →
      s.walkers = [] →
      s.invasion.invaders = [] →
      s.invasion.forumPos = findForumPos s.grid →
      s.invasion.warningActive = false →
      s.invasion.activeWave = false →
      s.gameOver = false →
      rebuildRoadNetwork s = s →
      L = s ∧ ∀ ds : List Draws, tickMany L ds = tickMany s ds) := by
  subst hL
  have hget : ∀ x z : Int,
      (Grid.fromJSON s.grid.toJSON).getTile x z = s.grid.getTile x z :=
    fun x z => Grid.fromJSON_toJSON_getTile s.grid x z
  have hreb : rebuildPlacedBuildings (Grid.fromJSON s.grid.toJSON) =
      rebuildPlacedBuildings s.grid :=
    rebuildPlacedBuildings_congr _ _ hget
  have H2 : ∀ p ∈ gridPairs,
      (((Grid.fromJSON s.grid.toJSON).getTile p.1 p.2).all fun t =>
        !t.building.isSome ||
          (rebuildPlacedBuildings (Grid.fromJSON s.grid.toJSON)).any
            fun b => b.covers p.1 p.2) = true := by
    intro p hp
    rw [hget, hreb]
    exact H p hp
  have hclean : cleanGhostTiles
      (rebuildPlacedBuildings (Grid.fromJSON s.grid.toJSON))
      (Grid.fromJSON s.grid.toJSON) = Grid.fromJSON s.grid.toJSON :=
    cleanGhostTiles_noop _ _ H2
  rw [loadFromSave_eq, doSave_grid, doSave_resources, doSave_score,
    doSave_tickCount, doSave_waveNumber, doSave_ticksUntilNextWave,
    rebuildRoadNetwork_eq]
  dsimp only
  refine ⟨⟨?_, ?_, rfl, rfl, rfl, rfl, rfl⟩, ?_⟩
  · rw [hclean]
    exact Grid.fromJSON_toJSON_size s.grid
  · intro x z
    rw [hclean]
    exact hget x z
  · intro hext hplaced hwalk hinv0 hforum hwarn hactive hgo hrb
    have hg2eq : Grid.fromJSON s.grid.toJSON = s.grid :=
      Grid.fromJSON_toJSON_eq s.grid hext
    have hcleans : cleanGhostTiles s.placedBuildings s.grid = s.grid := by
      rw [hplaced]
      exact cleanGhostTiles_noop _ _ H
    have key : ∀ A : GameState, A = s →
        A = s ∧ ∀ ds : List Draws, tickMany A ds = tickMany s ds :=
      fun A hA => ⟨hA, fun ds => by rw [hA]⟩
    apply key
    rw [hclean, hg2eq]
    conv_rhs => rw [← hrb]
    rw [rebuildRoadNetwork_eq s, hcleans, ← hforum, hplaced, hwalk, hgo]
    rw [show s.invasion = InvasionState.mk s.invasion.invaders
        s.invasion.waveNumber s.invasion.ticksUntilNextWave
        s.invasion.forumPos s.invasion.warningActive s.invasion.activeWave
      from rfl]
    dsimp only
    rw [hinv0, hwarn, hactive]

set_option maxRecDepth 4000 in
/-- Witness for C3: saving and reloading a fresh 32×32 state restores it
exactly. -/
theorem saveLoad_spec_witness :
    Game.loadFromSave (Game.doSave
      ⟨Grid.new 32, [], [], ⟨[], 0, 30, (0, 0), false, false⟩,
        ⟨500, 0, 0, 10⟩, ⟨0, 0, 0⟩, 0, [], false, false⟩ 7) =
      ⟨Grid.new 32, [], [], ⟨[], 0, 30, (0, 0), false, false⟩,
        ⟨500, 0, 0, 10⟩, ⟨0, 0, 0⟩, 0, [], false, false⟩ := by
  have hrb : rebuildRoadNetwork
      ⟨Grid.new 32, [], [], ⟨[], 0, 30, (0, 0), false, false⟩,
        ⟨500, 0, 0, 10⟩, ⟨0, 0, 0⟩, 0, [], false, false⟩ =
      ⟨Grid.new 32, [], [], ⟨[], 0, 30, (0, 0), false, false⟩,
        ⟨500, 0, 0, 10⟩, ⟨0, 0, 0⟩, 0, [], false, false⟩ := by
    rw [rebuildRoadNetwork_eq]
    dsimp only
    rw [cleanGhostTiles_noop [] (Grid.new 32)
      (empty_grid_all 32
        (fun p t => !t.building.isSome || ([] : List PlacedBuilding).any fun b => b.covers p.1 p.2)
        (fun p x z => rfl))]
    rfl
  have h := saveLoad_spec
    ⟨Grid.new 32, [], [], ⟨[], 0, 30, (0, 0), false, false⟩,
      ⟨500, 0, 0, 10⟩, ⟨0, 0, 0⟩, 0, [], false, false⟩ 7
    (Game.loadFromSave (Game.doSave
      ⟨Grid.new 32, [], [], ⟨[], 0, 30, (0, 0), false, false⟩,
        ⟨500, 0, 0, 10⟩, ⟨0, 0, 0⟩, 0, [], false, false⟩ 7))
    rfl
    (empty_grid_all 32
      (fun p t => !t.building.isSome ||
        (rebuildPlacedBuildings (Grid.new 32)).any fun b => b.covers p.1 p.2)
      (fun p x z => rfl))
  exact (h.2 (fun x z _ => rfl) rfl rfl rfl rfl rfl rfl rfl hrb).1

theorem isInBounds_iff (g : Grid) (x z : Int) :
    g.isInBounds x z = true ↔
      0 ≤ x ∧ x < (g.size : Int) ∧ 0 ≤ z ∧ z < (g.size : Int) := by
  simp [Grid.isInBounds, Bool.and_eq_true, decide_eq_true_eq, and_assoc]

theorem mem_allCells (n : Nat) (p : Pos) :
    p ∈ allCells n ↔ 0 ≤ p.1 ∧ p.1 < (n : Int) ∧ 0 ≤ p.2 ∧ p.2 < (n : Int) := by
  obtain ⟨a, b⟩ := p
  unfold allCells
  simp only [List.mem_flatMap, List.mem_map, List.mem_range, Prod.ext_iff]
  constructor
  · rintro ⟨x, hx, z, hz, h1, h2⟩
    omega
  · rintro ⟨h1, h2, h3, h4⟩
    exact ⟨a.toNat, by omega, b.toNat, by omega, by omega, by omega⟩

theorem length_allCells (n : Nat) : (allCells n).length = n * n := by
  unfold allCells
  rw [List.length_flatMap]
  have hf : (List.length ∘ fun (x : Nat) =>
      (List.range n).map fun (z : Nat) => ((x : Int), (z : Int))) =
      fun (_ : Nat) => n := by
    funext x
    simp [List.length_map, List.length_range]
  rw [hf]
  have hsum : ∀ l : List Nat, (l.map fun (_ : Nat) => n).sum = l.length * n := by
    intro l
    induction l with
    | nil => simp
    | cons a t ih =>
      simp only [List.map_cons, List.sum_cons, ih, List.length_cons]
      ring
  rw [hsum, List.length_range]

theorem mem_bfsDirs (n c : Pos) : n ∈ bfsDirs c ↔ mdist n c = 1 := by
  obtain ⟨a, b⟩ := n
  obtain ⟨x, z⟩ := c
  unfold bfsDirs mdist
  simp only [List.mem_cons, List.not_mem_nil, or_false, Prod.ext_iff]
  constructor
  · rintro (⟨h1, h2⟩ | ⟨h1, h2⟩ | ⟨h1, h2⟩ | ⟨h1, h2⟩) <;> omega
  · intro h
    omega

theorem isStepPath_cons (a b : Pos) (r : List Pos) :
    isStepPath (a :: b :: r) = true ↔
      mdist a b = 1 ∧ isStepPath (b :: r) = true := by
  simp [isStepPath, Bool.and_eq_true, decide_eq_true_eq]

theorem stepPath_length (l : List Pos) (a e : Pos)
    (h : isStepPath (a :: l) = true) (he : (a :: l).getLast? = some e) :
    mdist a e + 1 ≤ (a :: l).length := by
  induction l generalizing a with
  | nil =>
    simp only [List.getLast?_singleton, Option.some.injEq] at he
    subst he
    have : mdist a a = 0 := by unfold mdist; omega
    simp [this]
  | cons b r ih =>
    rw [isStepPath_cons] at h
    have he2 : (b :: r).getLast? = some e := by
      rw [← he, List.getLast?_cons_cons]
    have hrec := ih b h.2 he2
    have htri : mdist a e ≤ mdist a b + mdist b e := by unfold mdist; omega
    have h1 := h.1
    simp only [List.length_cons] at hrec ⊢
    omega

theorem stepPath_append_one (l : List Pos) (pp c : Pos)
    (h : isStepPath l = true) (hl : l.getLast? = some pp)
    (hd : mdist pp c = 1) : isStepPath (l ++ [c]) = true := by
  induction l with
  | nil => exact absurd hl (by simp)
  | cons a r ih =>
    cases r with
    | nil =>
      simp only [List.getLast?_singleton, Option.some.injEq] at hl
      subst hl
      simp [isStepPath, hd]
    | cons b r2 =>
      rw [isStepPath_cons] at h
      have hl2 : (b :: r2).getLast? = some pp := by
        rw [← hl, List.getLast?_cons_cons]
      have hrec := ih h.2 hl2
      show isStepPath (a :: ((b :: r2) ++ [c])) = true
      rw [List.cons_append, isStepPath_cons]
      exact ⟨h.1, hrec⟩

theorem vLookup_cons (a : Pos) (b : Option Pos) (v : VMap) (c : Pos) :
    vLookup ((a, b) :: v) c = if c = a then some b else vLookup v c := by
  unfold vLookup
  by_cases h : c = a
  · subst h
    rw [List.find?_cons_of_pos _ (by simp), if_pos rfl]
    rfl
  · rw [List.find?_cons_of_neg _
      (by simp only [decide_eq_true_eq]; exact fun hh => h hh.symm), if_neg h]

theorem vLookup_isSome (v : VMap) (c : Pos) :
    (vLookup v c).isSome = true ↔ c ∈ vKeys v := by
  induction v with
  | nil =>
    constructor
    · intro h
      exact absurd h (by unfold vLookup; simp)
    · intro h
      exact absurd h (by unfold vKeys; simp)
  | cons e v2 ih =>
    obtain ⟨a, b⟩ := e
    rw [vLookup_cons]
    unfold vKeys
    simp only [List.map_cons, List.mem_cons]
    by_cases hc : c = a
    · rw [if_pos hc]
      simp [hc]
    · rw [if_neg hc]
      constructor
      · intro h
        exact Or.inr (ih.mp h)
      · rintro (h | h)
        · exact absurd h hc
        · exact ih.mpr h

theorem vLookup_mem (v : VMap) (c : Pos) (par : Option Pos)
    (h : vLookup v c = some par) : (c, par) ∈ v := by
  unfold vLookup at h
  cases hf : v.find? (fun e => decide (e.1 = c)) with
  | none => rw [hf] at h; exact Option.noConfusion h
  | some e =>
    rw [hf] at h
    have h2 : e.2 = par := Option.some.inj h
    have hm := List.mem_of_find?_eq_some hf
    have hp := List.find?_some hf
    simp only [decide_eq_true_eq] at hp
    obtain ⟨e1, e2⟩ := e
    dsimp only at hp h2
    subst hp
    subst h2
    exact hm

theorem vLookup_none_not_mem (v : VMap) (c : Pos)
    (h : vLookup v c = none) : c ∉ vKeys v := by
  intro hc
  rw [← vLookup_isSome, h] at hc
  exact Bool.noConfusion hc

theorem vLookup_append_left (v w : VMap) (c : Pos) (x : Option Pos)
    (h : vLookup v c = some x) : vLookup (v ++ w) c = some x := by
  induction v with
  | nil => exact absurd h (by unfold vLookup; simp)
  | cons e v2 ih =>
    obtain ⟨a, b⟩ := e
    rw [List.cons_append, vLookup_cons]
    rw [vLookup_cons] at h
    by_cases hc : c = a
    · rw [if_pos hc]
      rw [if_pos hc] at h
      exact h
    · rw [if_neg hc]
      rw [if_neg hc] at h
      exact ih h

theorem vLookup_append_right (v w : VMap) (c : Pos)
    (h : vLookup v c = none) : vLookup (v ++ w) c = vLookup w c := by
  induction v with
  | nil => rfl
  | cons e v2 ih =>
    obtain ⟨a, b⟩ := e
    rw [List.cons_append, vLookup_cons]
    rw [vLookup_cons] at h
    by_cases hc : c = a
    · rw [if_pos hc] at h
      exact Option.noConfusion h
    · rw [if_neg hc] at h
      rw [if_neg hc]
      exact ih h

theorem vKeys_append (v w : VMap) : vKeys (v ++ w) = vKeys v ++ vKeys w := by
  unfold vKeys
  exact List.map_append _ v w

/-- The wall branch of the BFS neighbor scan takes the same action as the
default branch, so the push step reduces to the visited and bounds tests
alone: tile contents never prune the frontier. -/
theorem bfsPush_cons (g : Grid) (curr n : Pos) (ds q : List Pos) (v : VMap) :
    bfsPush g curr (n :: ds) q v =
      if (vLookup v n).isSome then bfsPush g curr ds q v
      else if ¬ g.isInBounds n.1 n.2 then bfsPush g curr ds q v
      else bfsPush g curr ds (q ++ [n]) ((n, some curr) :: v) := by
  rw [bfsPush]
  split_ifs with h1 h2
  · rfl
  · cases hg : g.getTile n.1 n.2 with
    | none => rfl
    | some t => exact ite_self _
  · rfl

/-- Decomposition of one BFS neighbor scan: some sublist `new` of the
directions — exactly those in-bounds and unvisited — is appended to the queue
and recorded in the visited map with parent `curr`; afterwards every in-bounds
direction is visited. -/
theorem bfsPush_spec (g : Grid) (curr : Pos) :
    ∀ (ds q : List Pos) (v : VMap), ∃ new : List Pos,
      (bfsPush g curr ds q v).1 = q ++ new ∧
      (bfsPush g curr ds q v).2 =
        (new.reverse.map fun n => (n, some curr)) ++ v ∧
      (∀ n ∈ new, n ∈ ds ∧ g.isInBounds n.1 n.2 = true ∧ vLookup v n = none) ∧
      (∀ n ∈ ds, g.isInBounds n.1 n.2 = true →
        n ∈ vKeys (bfsPush g curr ds q v).2) ∧
      new.Nodup := by
  intro ds
  induction ds with
  | nil =>
    intro q v
    refine ⟨[], by simp [bfsPush], by simp [bfsPush], by simp, by simp,
      List.nodup_nil⟩
  | cons n ds ih =>
    intro q v
    rw [bfsPush_cons]
    by_cases h1 : (vLookup v n).isSome = true
    · rw [if_pos h1]
      obtain ⟨new, ha, hb, hc, hd, hnd⟩ := ih q v
      refine ⟨new, ha, hb, ?_, ?_, hnd⟩
      · intro m hm
        exact ⟨List.mem_cons_of_mem n (hc m hm).1, (hc m hm).2.1,
          (hc m hm).2.2⟩
      · intro m hm hmb
        rcases List.mem_cons.mp hm with rfl | hm2
        · rw [hb, vKeys_append]
          exact List.mem_append_right _ ((vLookup_isSome v m).mp h1)
        · exact hd m hm2 hmb
    · rw [if_neg h1]
      have hnone : vLookup v n = none := by
        cases hvn : vLookup v n with
        | none => rfl
        | some x => exact absurd (by rw [hvn]; rfl) h1
      by_cases h2 : ¬ g.isInBounds n.1 n.2 = true
      · rw [if_pos h2]
        obtain ⟨new, ha, hb, hc, hd, hnd⟩ := ih q v
        refine ⟨new, ha, hb, ?_, ?_, hnd⟩
        · intro m hm
          exact ⟨List.mem_cons_of_mem n (hc m hm).1, (hc m hm).2.1,
            (hc m hm).2.2⟩
        · intro m hm hmb
          rcases List.mem_cons.mp hm with rfl | hm2
          · exact absurd hmb h2
          · exact hd m hm2 hmb
      · rw [if_neg h2]
        have hbnd : g.isInBounds n.1 n.2 = true := not_not.mp h2
        obtain ⟨new, ha, hb, hc, hd, hnd⟩ := ih (q ++ [n]) ((n, some curr) :: v)
        refine ⟨n :: new, ?_, ?_, ?_, ?_, ?_⟩
        · rw [ha, List.append_assoc]
          rfl
        · rw [hb, List.reverse_cons, List.map_append, List.append_assoc]
          rfl
        · intro m hm
          rcases List.mem_cons.mp hm with rfl | hm2
          · exact ⟨List.mem_cons_self _ _, hbnd, hnone⟩
          · have h3 := hc m hm2
            refine ⟨List.mem_cons_of_mem _ h3.1, h3.2.1, ?_⟩
            have h4 := h3.2.2
            rw [vLookup_cons] at h4
            by_cases hmn : m = n
            · rw [if_pos hmn] at h4
              exact Option.noConfusion h4
            · rw [if_neg hmn] at h4
              exact h4
        · intro m hm hmb
          rcases List.mem_cons.mp hm with rfl | hm2
          · rw [hb, vKeys_append]
            apply List.mem_append_right
            unfold vKeys
            simp
          · exact hd m hm2 hmb
        · rw [List.nodup_cons]
          refine ⟨?_, hnd⟩
          intro hn
          have h5 := (hc n hn).2.2
          rw [vLookup_cons, if_pos rfl] at h5
          exact Option.noConfusion h5

theorem vKeys_length (v : VMap) : (vKeys v).length = v.length := by
  unfold vKeys
  exact List.length_map v Prod.fst

theorem mdist_comm (a b : Pos) : mdist a b = mdist b a := by
  unfold mdist
  omega

theorem mdist_self (a : Pos) : mdist a a = 0 := by
  unfold mdist
  omega

theorem mdist_eq_zero (a b : Pos) (h : mdist a b = 0) : a = b := by
  obtain ⟨a1, a2⟩ := a
  obtain ⟨b1, b2⟩ := b
  unfold mdist at h
  rw [Prod.ext_iff]
  dsimp only at h ⊢
  omega

theorem vLookup_eq_none_iff (v : VMap) (c : Pos) :
    vLookup v c = none ↔ c ∉ vKeys v := by
  constructor
  · exact vLookup_none_not_mem v c
  · intro h
    cases hv : vLookup v c with
    | none => rfl
    | some x => exact absurd ((vLookup_isSome v c).mp (by rw [hv]; rfl)) h

theorem vKeys_pairs (l : List Pos) (curr : Pos) :
    vKeys (l.map fun n => (n, some curr)) = l := by
  unfold vKeys
  rw [List.map_map]
  rw [show (Prod.fst ∘ fun n : Pos => (n, some curr)) = id from rfl,
    List.map_id]

/-- Any in-bounds cell at Manhattan distance `k + 1` from an in-bounds start
has an in-bounds neighbor at distance `k` (the grid is a full rectangle, so a
step toward the start stays inside). -/
theorem step_toward (g : Grid) (start c : Pos)
    (hs : g.isInBounds start.1 start.2 = true)
    (hc : g.isInBounds c.1 c.2 = true) (k : Nat) (hk : mdist start c = k + 1) :
    ∃ m : Pos, mdist start m = k ∧ mdist m c = 1 ∧
      g.isInBounds m.1 m.2 = true := by
  rw [isInBounds_iff] at hs hc
  unfold mdist at hk
  rcases lt_trichotomy start.1 c.1 with h1 | h1 | h1
  · refine ⟨(c.1 - 1, c.2), ?_, ?_, ?_⟩
    · unfold mdist
      dsimp only
      omega
    · unfold mdist
      dsimp only
      omega
    · rw [isInBounds_iff]
      dsimp only
      omega
  · rcases lt_trichotomy start.2 c.2 with h2 | h2 | h2
    · refine ⟨(c.1, c.2 - 1), ?_, ?_, ?_⟩
      · unfold mdist
        dsimp only
        omega
      · unfold mdist
        dsimp only
        omega
      · rw [isInBounds_iff]
        dsimp only
        omega
    · exfalso
      omega
    · refine ⟨(c.1, c.2 + 1), ?_, ?_, ?_⟩
      · unfold mdist
        dsimp only
        omega
      · unfold mdist
        dsimp only
        omega
      · rw [isInBounds_iff]
        dsimp only
        omega
  · refine ⟨(c.1 + 1, c.2), ?_, ?_, ?_⟩
    · unfold mdist
      dsimp only
      omega
    · unfold mdist
      dsimp only
      omega
    · rw [isInBounds_iff]
      dsimp only
      omega

/-- Once every queue entry sits on the next Manhattan level, the invariant
advances one level: every in-bounds cell at the new level is visited because
its step-toward-start neighbor has been popped and popped cells are closed
under in-bounds neighbors. -/
theorem bfs_advance (g : Grid) (forum start : Pos) (q : List Pos) (v : VMap)
    (L : Nat) (hs : g.isInBounds start.1 start.2 = true)
    (hInv : BfsInv g forum start q v L)
    (hall : ∀ c ∈ q, mdist start c = L + 1) :
    BfsInv g forum start q v (L + 1) := by
  obtain ⟨hnd, hP, hkb, hqk, _, hpf, hcl, hcp, hlt⟩ := hInv
  refine ⟨hnd, hP, hkb, hqk, ⟨q, [], by simp, hall, by simp⟩, hpf, hcl, ?_, ?_⟩
  · intro c hcb hle
    rcases Nat.lt_or_ge (mdist start c) (L + 1) with hlt2 | hge
    · exact hcp c hcb (by omega)
    · have hk : mdist start c = L + 1 := by omega
      obtain ⟨m, hm1, hm2, hm3⟩ := step_toward g start c hs hcb L hk
      have hmk : m ∈ vKeys v := hcp m hm3 (by omega)
      have hmq : m ∉ q := by
        intro hmem
        have := hall m hmem
        omega
      have hcd : c ∈ bfsDirs m := by
        rw [mem_bfsDirs, mdist_comm]
        exact hm2
      exact hcl m hmk hmq c hcd hcb
  · intro c hcb hlt2
    intro hmem
    have := hall c hmem
    omega

/-- When the queue has emptied, every in-bounds cell has been visited and
popped, so none of them is a forum-footprint cell. -/
theorem bfs_exhaust (g : Grid) (forum start : Pos) (v : VMap) (L : Nat)
    (hs : g.isInBounds start.1 start.2 = true)
    (hInv : BfsInv g forum start [] v L) :
    ∀ c : Pos, g.isInBounds c.1 c.2 = true → reachedForum forum c = false := by
  obtain ⟨hnd, ⟨hroot, hnr, hpar, hdb⟩, hkb, hqk, hlev, hpf, hcl, hcp, hlt⟩ :=
    hInv
  have hmem : ∀ k : Nat, ∀ c : Pos, mdist start c = k →
      g.isInBounds c.1 c.2 = true → c ∈ vKeys v := by
    intro k
    induction k with
    | zero =>
      intro c hk hcb
      have : c = start := by
        have := mdist_eq_zero start c (by rw [mdist_comm] at hk ⊢; exact hk)
        exact this.symm
      subst this
      exact (vLookup_isSome v c).mp (by rw [hroot]; rfl)
    | succ k ih =>
      intro c hk hcb
      obtain ⟨m, hm1, hm2, hm3⟩ := step_toward g start c hs hcb k hk
      have hmk : m ∈ vKeys v := ih m hm1 hm3
      have hcd : c ∈ bfsDirs m := by
        rw [mem_bfsDirs, mdist_comm]
        exact hm2
      exact hcl m hmk (List.not_mem_nil m) c hcd hcb
  intro c hcb
  exact hpf c (hmem (mdist start c) c rfl hcb) (List.not_mem_nil c)

/-- One BFS iteration preserves the invariant: the popped cell `curr` (on the
current level, failing the forum test) has its unvisited in-bounds neighbors
— all on the next level — appended to the queue and recorded with parent
`curr`. The queue and map both grow by the same count. -/
theorem bfs_step_inv (g : Grid) (forum start curr : Pos) (rest : List Pos)
    (v : VMap) (L : Nat) (qa2 qb2 : List Pos)
    (hs : g.isInBounds start.1 start.2 = true)
    (hInv : BfsInv g forum start (curr :: rest) v L)
    (hcurr : mdist start curr = L)
    (hrest : rest = qa2 ++ qb2)
    (hqa2 : ∀ c ∈ qa2, mdist start c = L)
    (hqb2 : ∀ c ∈ qb2, mdist start c = L + 1)
    (hrf : reachedForum forum curr = false) :
    BfsInv g forum start (bfsPush g curr (bfsDirs curr) rest v).1
      (bfsPush g curr (bfsDirs curr) rest v).2 L ∧
    ∃ k : Nat,
      (bfsPush g curr (bfsDirs curr) rest v).1.length = rest.length + k ∧
      (bfsPush g curr (bfsDirs curr) rest v).2.length = v.length + k := by
  obtain ⟨hnd, ⟨hroot, hnr, hpar, hdb⟩, hkb, hqk, _, hpf, hcl, hcp, hlt⟩ := hInv
  obtain ⟨new, hnq, hnv, hnew, hcov, hnnd⟩ :=
    bfsPush_spec g curr (bfsDirs curr) rest v
  have hkeys : vKeys (bfsPush g curr (bfsDirs curr) rest v).2 =
      new.reverse ++ vKeys v := by
    rw [hnv, vKeys_append, vKeys_pairs]
  have hcurrk : curr ∈ vKeys v := hqk curr (List.mem_cons_self curr rest)
  have hnewD : ∀ n ∈ new, mdist start n = L + 1 := by
    intro n hn
    obtain ⟨hnd2, hnb, hnl⟩ := hnew n hn
    have h1 : mdist n curr = 1 := (mem_bfsDirs n curr).mp hnd2
    rcases Nat.lt_or_ge (mdist start n) (L + 1) with hlt2 | hge
    · exfalso
      have : n ∈ vKeys v := hcp n hnb (by omega)
      exact (vLookup_eq_none_iff v n).mp hnl this
    · unfold mdist at hcurr h1 hge ⊢
      omega
  refine ⟨⟨?_, ⟨?_, ?_, ?_, ?_⟩, ?_, ?_, ?_, ?_, ?_, ?_, ?_⟩, ?_⟩
  · rw [hkeys]
    exact List.Nodup.append (List.nodup_reverse.mpr hnnd) hnd
      (fun a ha => (vLookup_eq_none_iff v a).mp
        (hnew a (List.mem_reverse.mp ha)).2.2)
  · rw [hnv]
    have hno : vLookup (new.reverse.map fun n => (n, some curr)) start
        = none := by
      rw [vLookup_eq_none_iff, vKeys_pairs]
      intro hmem
      have := (hnew start (List.mem_reverse.mp hmem)).2.2
      rw [hroot] at this
      exact Option.noConfusion this
    rw [vLookup_append_right _ _ _ hno]
    exact hroot
  · intro cp hcp2 hsnd
    rw [hnv] at hcp2
    rcases List.mem_append.mp hcp2 with hin | hin
    · obtain ⟨n, _, rfl⟩ := List.mem_map.mp hin
      exact Option.noConfusion hsnd
    · exact hnr cp hin hsnd
  · intro cp hcp2 pp hpp
    rw [hnv] at hcp2
    rcases List.mem_append.mp hcp2 with hin | hin
    · obtain ⟨n, hn, rfl⟩ := List.mem_map.mp hin
      have hn2 : n ∈ new := List.mem_reverse.mp hn
      have hpe : pp = curr := by
        have := Option.some.inj hpp
        exact this.symm
      subst hpe
      refine ⟨?_, ?_, ?_, ?_⟩
      · show mdist start n = mdist start pp + 1
        rw [hnewD n hn2, hcurr]
      · show mdist pp n = 1
        rw [mdist_comm]
        exact (mem_bfsDirs n pp).mp (hnew n hn2).1
      · rw [hkeys]
        exact List.mem_append_right _ hcurrk
      · exact (hnew n hn2).2.1
    · obtain ⟨h1, h2, h3, h4⟩ := hpar cp hin pp hpp
      refine ⟨h1, h2, ?_, h4⟩
      rw [hkeys]
      exact List.mem_append_right _ h3
  · intro c hc
    rw [hkeys] at hc
    rw [hnv, List.length_append, List.length_map, List.length_reverse]
    rcases List.mem_append.mp hc with hin | hin
    · have hn2 : c ∈ new := List.mem_reverse.mp hin
      have hD := hnewD c hn2
      have hb1 : L + 1 ≤ v.length := by
        have := hdb curr hcurrk
        omega
      have hb2 : 0 < new.length := List.length_pos_of_mem hn2
      omega
    · have := hdb c hin
      omega
  · intro c hc
    rw [hkeys] at hc
    rcases List.mem_append.mp hc with hin | hin
    · exact (hnew c (List.mem_reverse.mp hin)).2.1
    · exact hkb c hin
  · intro c hc
    rw [hnq] at hc
    rw [hkeys]
    rcases List.mem_append.mp hc with hin | hin
    · exact List.mem_append_right _ (hqk c (List.mem_cons_of_mem curr hin))
    · exact List.mem_append_left _ (List.mem_reverse.mpr hin)
  · refine ⟨qa2, qb2 ++ new, ?_, hqa2, ?_⟩
    · rw [hnq, hrest, List.append_assoc]
    · intro c hc
      rcases List.mem_append.mp hc with hin | hin
      · exact hqb2 c hin
      · exact hnewD c hin
  · intro c hc hnq2
    rw [hkeys] at hc
    rcases List.mem_append.mp hc with hin | hin
    · exact absurd
        (by rw [hnq]; exact List.mem_append_right _ (List.mem_reverse.mp hin))
        hnq2
    · by_cases hceq : c = curr
      · subst hceq
        exact hrf
      · refine hpf c hin ?_
        intro hmem
        rcases List.mem_cons.mp hmem with h | h
        · exact hceq h
        · exact hnq2 (by rw [hnq]; exact List.mem_append_left _ h)
  · intro c hc hnq2 n hnbr hninb
    rw [hkeys] at hc
    rcases List.mem_append.mp hc with hin | hin
    · exact absurd
        (by rw [hnq]; exact List.mem_append_right _ (List.mem_reverse.mp hin))
        hnq2
    · by_cases hceq : c = curr
      · subst hceq
        exact hcov n hnbr hninb
      · have hnotq : c ∉ curr :: rest := by
          intro hmem
          rcases List.mem_cons.mp hmem with h | h
          · exact hceq h
          · exact hnq2 (by rw [hnq]; exact List.mem_append_left _ h)
        rw [hkeys]
        exact List.mem_append_right _ (hcl c hin hnotq n hnbr hninb)
  · intro c hc hle
    rw [hkeys]
    exact List.mem_append_right _ (hcp c hc hle)
  · intro c hc hlt2 hmem
    rw [hnq] at hmem
    rcases List.mem_append.mp hmem with hin | hin
    · exact hlt c hc hlt2 (List.mem_cons_of_mem curr hin)
    · have := hnewD c hin
      omega
  · refine ⟨new.length, by rw [hnq, List.length_append], ?_⟩
    rw [hnv, List.length_append, List.length_map, List.length_reverse]
    omega

theorem vKeys_le_of_inBounds (g : Grid) (v : VMap)
    (hnd : (vKeys v).Nodup)
    (hb : ∀ c ∈ vKeys v, g.isInBounds c.1 c.2 = true) :
    v.length ≤ g.size * g.size := by
  have hsub : (vKeys v).toFinset ⊆ (allCells g.size).toFinset := by
    intro c hc
    rw [List.mem_toFinset] at hc ⊢
    rw [mem_allCells]
    have := hb c hc
    rw [isInBounds_iff] at this
    exact this
  calc v.length = (vKeys v).length := (vKeys_length v).symm
    _ = (vKeys v).toFinset.card := (List.toFinset_card_of_nodup hnd).symm
    _ ≤ (allCells g.size).toFinset.card := Finset.card_le_card hsub
    _ ≤ (allCells g.size).length := List.toFinset_card_le _
    _ = g.size * g.size := length_allCells g.size

/-- The BFS loop with sufficient fuel never runs out; on `found` it returns
the closest in-bounds forum-footprint cell together with a parent map fit for
reconstruction, and on `exhausted` no in-bounds cell lies in the forum
footprint. -/
theorem bfsLoop_main (g : Grid) (forum start : Pos)
    (hs : g.isInBounds start.1 start.2 = true) :
    ∀ (fuel : Nat) (q : List Pos) (v : VMap) (L : Nat),
      BfsInv g forum start q v L →
      q.length + (g.size * g.size - v.length) < fuel →
      (bfsLoop g forum fuel q v ≠ .fuelOut) ∧
      (∀ curr v2, bfsLoop g forum fuel q v = .found curr v2 →
        ParentInv g start v2 ∧
        (∀ c ∈ vKeys v2, g.isInBounds c.1 c.2 = true) ∧
        curr ∈ vKeys v2 ∧
        g.isInBounds curr.1 curr.2 = true ∧
        reachedForum forum curr = true ∧
        (∀ c : Pos, g.isInBounds c.1 c.2 = true → reachedForum forum c = true →
          mdist start curr ≤ mdist start c)) ∧
      (∀ v2, bfsLoop g forum fuel q v = .exhausted v2 →
        ∀ c : Pos, g.isInBounds c.1 c.2 = true →
          reachedForum forum c = false) := by
  intro fuel
  induction fuel with
  | zero =>
    intro q v L hInv hm
    exact absurd hm (Nat.not_lt_zero _)
  | succ fuel ih =>
    intro q v L hInv hm
    cases q with
    | nil =>
      refine ⟨?_, ?_, ?_⟩
      · intro h
        rw [bfsLoop] at h
        exact BfsResult.noConfusion h
      · intro curr v2 h
        rw [bfsLoop] at h
        exact BfsResult.noConfusion h
      · intro v2 h
        exact bfs_exhaust g forum start v L hs hInv
    | cons curr rest =>
      have hcont : ∀ (L2 : Nat) (qa2 qb2 : List Pos),
          BfsInv g forum start (curr :: rest) v L2 →
          mdist start curr = L2 →
          rest = qa2 ++ qb2 →
          (∀ c ∈ qa2, mdist start c = L2) →
          (∀ c ∈ qb2, mdist start c = L2 + 1) →
          (bfsLoop g forum (fuel + 1) (curr :: rest) v ≠ .fuelOut) ∧
          (∀ curr2 v2,
            bfsLoop g forum (fuel + 1) (curr :: rest) v = .found curr2 v2 →
            ParentInv g start v2 ∧
            (∀ c ∈ vKeys v2, g.isInBounds c.1 c.2 = true) ∧
            curr2 ∈ vKeys v2 ∧
            g.isInBounds curr2.1 curr2.2 = true ∧
            reachedForum forum curr2 = true ∧
            (∀ c : Pos, g.isInBounds c.1 c.2 = true →
              reachedForum forum c = true →
              mdist start curr2 ≤ mdist start c)) ∧
          (∀ v2,
            bfsLoop g forum (fuel + 1) (curr :: rest) v = .exhausted v2 →
            ∀ c : Pos, g.isInBounds c.1 c.2 = true →
              reachedForum forum c = false) := by
        intro L2 qa2 qb2 hInv2 hcurr hrest hqa2 hqb2
        rw [bfsLoop]
        by_cases hrf : reachedForum forum curr = true
        · rw [if_pos hrf]
          refine ⟨fun h => BfsResult.noConfusion h, ?_, ?_⟩
          · intro curr2 v2 h
            injection h with h1 h2
            subst h1
            subst h2
            obtain ⟨hnd, hP, hkb, hqk, _, hpf, hcl, hcp, hlt⟩ := hInv2
            have hck : curr ∈ vKeys v := hqk curr (List.mem_cons_self curr rest)
            refine ⟨hP, hkb, hck, hkb curr hck, hrf, ?_⟩
            intro c hcb hcf
            by_contra hx
            push_neg at hx
            have h1 : c ∈ vKeys v := hcp c hcb (by omega)
            have h2 : c ∉ curr :: rest := hlt c hcb (by omega)
            have h3 := hpf c h1 h2
            rw [hcf] at h3
            exact Bool.noConfusion h3
          · intro v2 h
            exact BfsResult.noConfusion h
        · rw [if_neg hrf]
          have hrf2 : reachedForum forum curr = false := by
            cases hv : reachedForum forum curr with
            | false => rfl
            | true => exact absurd hv hrf
          dsimp only
          obtain ⟨hInv3, k, hk1, hk2⟩ :=
            bfs_step_inv g forum start curr rest v L2 qa2 qb2 hs hInv2 hcurr
              hrest hqa2 hqb2 hrf2
          have hvb : (bfsPush g curr (bfsDirs curr) rest v).2.length ≤
              g.size * g.size :=
            vKeys_le_of_inBounds g _ hInv3.1 hInv3.2.2.1
          have hm2 : (bfsPush g curr (bfsDirs curr) rest v).1.length +
              (g.size * g.size -
                (bfsPush g curr (bfsDirs curr) rest v).2.length) < fuel := by
            rw [hk1, hk2]
            rw [hk2] at hvb
            simp only [List.length_cons] at hm
            omega
          exact ih (bfsPush g curr (bfsDirs curr) rest v).1
            (bfsPush g curr (bfsDirs curr) rest v).2 L2 hInv3 hm2
      rcases hInv.2.2.2.2.1 with ⟨qa, qb, hq, hqa, hqb⟩
      cases qa with
      | nil =>
        have hq2 : curr :: rest = qb := by simpa using hq
        have hall : ∀ c ∈ curr :: rest, mdist start c = L + 1 := by
          intro c hcq
          rw [hq2] at hcq
          exact hqb c hcq
        have hInv2 := bfs_advance g forum start (curr :: rest) v L hs hInv hall
        exact hcont (L + 1) rest [] hInv2
          (hall curr (List.mem_cons_self curr rest))
          (by simp)
          (fun c hc => hall c (List.mem_cons_of_mem curr hc))
          (by simp)
      | cons c0 qa2 =>
        injection hq with h1 h2
        subst h1
        exact hcont L qa2 qb hInv
          (hqa curr (List.mem_cons_self curr qa2))
          h2
          (fun c hc => hqa c (List.mem_cons_of_mem curr hc))
          hqb

theorem getLast?_append_singleton {α : Type} (l : List α) (a : α) :
    (l ++ [a]).getLast? = some a := by
  rw [List.getLast?_concat]

/-- Following the parent links from any visited cell yields a 4-directional
walk from the start to that cell whose length is one more than its Manhattan
distance from the start. -/
theorem reconstructPath_spec (g : Grid) (start : Pos) (v : VMap)
    (hP : ParentInv g start v) :
    ∀ (fuel k : Nat) (c : Pos), c ∈ vKeys v → mdist start c = k → k < fuel →
      (reconstructPath v fuel c).head? = some start ∧
      (reconstructPath v fuel c).getLast? = some c ∧
      isStepPath (reconstructPath v fuel c) = true ∧
      (reconstructPath v fuel c).length = k + 1 ∧
      (∀ x ∈ reconstructPath v fuel c, x ∈ vKeys v) := by
  obtain ⟨hroot, hnr, hpar, hdb⟩ := hP
  intro fuel
  induction fuel with
  | zero =>
    intro k c _ _ h
    exact absurd h (Nat.not_lt_zero _)
  | succ fuel ih =>
    intro k c hck hkd hkf
    have hlk : (vLookup v c).isSome = true := (vLookup_isSome v c).mpr hck
    cases hv : vLookup v c with
    | none =>
      rw [hv] at hlk
      exact Bool.noConfusion hlk
    | some par =>
      have hmem := vLookup_mem v c par hv
      cases par with
      | none =>
        have hcs : c = start := hnr (c, none) hmem rfl
        have he : reconstructPath v (fuel + 1) c = [c] := by
          rw [reconstructPath, hv]
        have hk0 : k = 0 := by
          rw [← hkd, hcs, mdist_self]
        rw [he, hk0]
        refine ⟨by rw [hcs]; rfl, rfl, rfl, rfl, ?_⟩
        intro x hx
        rw [List.mem_singleton] at hx
        subst hx
        exact hck
      | some pp =>
        obtain ⟨hd1, hd2, hd3, hd4⟩ := hpar (c, some pp) hmem pp rfl
        dsimp only at hd1 hd2 hd4
        have he : reconstructPath v (fuel + 1) c =
            reconstructPath v fuel pp ++ [c] := by
          rw [reconstructPath, hv]
        obtain ⟨ih1, ih2, ih3, ih4, ih5⟩ :=
          ih (mdist start pp) pp hd3 rfl (by omega)
        rw [he]
        refine ⟨?_, ?_, ?_, ?_, ?_⟩
        · cases hl : reconstructPath v fuel pp with
          | nil =>
            rw [hl] at ih4
            exact absurd ih4 (by simp)
          | cons a t =>
            rw [hl] at ih1
            rw [List.cons_append]
            exact ih1
        · exact getLast?_append_singleton _ c
        · exact stepPath_append_one _ pp c ih3 ih2 hd2
        · rw [List.length_append, ih4]
          simp only [List.length_singleton]
          omega
        · intro x hx
          rcases List.mem_append.mp hx with h | h
          · exact ih5 x h
          · rw [List.mem_singleton] at h
            subst h
            exact hck

/-- The neighbor scan does not depend on tile contents: only the grid size
(through the bounds test) matters. Walls never prune the frontier. -/
theorem bfsPush_congr (g g2 : Grid) (hsz : g2.size = g.size) (curr : Pos) :
    ∀ (ds q : List Pos) (v : VMap),
      bfsPush g2 curr ds q v = bfsPush g curr ds q v := by
  have hib : ∀ x z : Int, g2.isInBounds x z = g.isInBounds x z := by
    intro x z
    unfold Grid.isInBounds
    rw [hsz]
  intro ds
  induction ds with
  | nil => intro q v; rfl
  | cons n ds ih =>
    intro q v
    rw [bfsPush_cons, bfsPush_cons, hib]
    simp only [ih]

theorem bfsLoop_congr (g g2 : Grid) (hsz : g2.size = g.size) (forum : Pos) :
    ∀ (fuel : Nat) (q : List Pos) (v : VMap),
      bfsLoop g2 forum fuel q v = bfsLoop g forum fuel q v := by
  intro fuel
  induction fuel with
  | zero => intro q v; rfl
  | succ fuel ih =>
    intro q v
    cases q with
    | nil => rfl
    | cons curr rest =>
      rw [bfsLoop, bfsLoop]
      by_cases h : reachedForum forum curr = true
      · rw [if_pos h, if_pos h]
      · rw [if_neg h, if_neg h]
        dsimp only
        rw [bfsPush_congr g g2 hsz curr (bfsDirs curr) rest v, ih]

theorem computePath_congr (g g2 : Grid) (hsz : g2.size = g.size)
    (forum start : Pos) :
    computePath g2 forum start = computePath g forum start := by
  unfold computePath
  rw [hsz, bfsLoop_congr g g2 hsz]

/-- C4: the invader path computation is a breadth-first search over the
4-directional neighbors in which every in-bounds cell is enqueued: the wall
branch takes the same action as the default branch, so the whole computation
is independent of tile contents (first conjunct, over any same-size grid).
When some in-bounds cell of the forum footprint exists at minimal Manhattan
distance `dmin` from the in-bounds start, the returned path is a
4-directional walk of in-bounds cells from the start to a footprint cell of
length `dmin + 1`, no longer than any competing 4-directional walk from the
start to an in-bounds footprint cell — a shortest path. When no in-bounds
cell lies in the footprint the search exhausts its queue and the result
falls back to the two-point path `[start, forum]`. -/
theorem computePath_spec (g : Grid) (forum start : Pos)
    (hs : g.isInBounds start.1 start.2 = true) :
    (∀ g2 : Grid, g2.size = g.size →
      computePath g2 forum start = computePath g forum start) ∧
    (∀ dmin : Nat,
      (∃ c0 : Pos, g.isInBounds c0.1 c0.2 = true ∧
        reachedForum forum c0 = true ∧ mdist start c0 = dmin) →
      (∀ c : Pos, g.isInBounds c.1 c.2 = true → reachedForum forum c = true →
        dmin ≤ mdist start c) →
      (computePath g forum start).head? = some start ∧
      (∃ e : Pos, (computePath g forum start).getLast? = some e ∧
        reachedForum forum e = true ∧ g.isInBounds e.1 e.2 = true) ∧
      isStepPath (computePath g forum start) = true ∧
      (∀ c ∈ computePath g forum start, g.isInBounds c.1 c.2 = true) ∧
      (computePath g forum start).length = dmin + 1 ∧
      (∀ qq : List Pos, isStepPath qq = true → qq.head? = some start →
        (∃ e2 : Pos, qq.getLast? = some e2 ∧
          g.isInBounds e2.1 e2.2 = true ∧ reachedForum forum e2 = true) →
        (computePath g forum start).length ≤ qq.length)) ∧
    ((∀ c : Pos, g.isInBounds c.1 c.2 = true →
        reachedForum forum c = false) →
      computePath g forum start = [start, forum]) := by
  have hInit : BfsInv g forum start [start] [(start, none)] 0 := by
    refine ⟨?_, ⟨?_, ?_, ?_, ?_⟩, ?_, ?_, ?_, ?_, ?_, ?_, ?_⟩
    · exact List.nodup_singleton start
    · rw [show ((start, none) :: [] : VMap) = [(start, none)] from rfl]
      rw [vLookup_cons, if_pos rfl]
    · intro cp hcp _
      rw [List.mem_singleton] at hcp
      rw [hcp]
    · intro cp hcp pp hpp
      rw [List.mem_singleton] at hcp
      rw [hcp] at hpp
      exact Option.noConfusion hpp
    · intro c hc
      have : c = start := by
        unfold vKeys at hc
        simpa using hc
      subst this
      rw [mdist_self]
      exact Nat.le_refl 1
    · intro c hc
      have : c = start := by
        unfold vKeys at hc
        simpa using hc
      subst this
      exact hs
    · intro c hc
      rw [List.mem_singleton] at hc
      subst hc
      unfold vKeys
      simp
    · refine ⟨[start], [], rfl, ?_, by simp⟩
      intro c hc
      rw [List.mem_singleton] at hc
      rw [hc]
      exact mdist_self start
    · intro c hc hnq
      have : c = start := by
        unfold vKeys at hc
        simpa using hc
      subst this
      exact absurd (List.mem_singleton.mpr rfl) hnq
    · intro c hc hnq
      have : c = start := by
        unfold vKeys at hc
        simpa using hc
      subst this
      exact absurd (List.mem_singleton.mpr rfl) hnq
    · intro c hcb hle
      have h0 : mdist start c = 0 := Nat.le_zero.mp hle
      have : c = start := (mdist_eq_zero start c h0).symm
      subst this
      unfold vKeys
      simp
    · intro c _ hlt
      exact absurd hlt (Nat.not_lt_zero _)
  have hsz1 : 1 ≤ g.size := by
    have hb := hs
    rw [isInBounds_iff] at hb
    omega
  have hmeas : ([start] : List Pos).length +
      (g.size * g.size - ([(start, none)] : VMap).length) <
      g.size * g.size + 2 := by
    have : 1 ≤ g.size * g.size := Nat.mul_le_mul hsz1 hsz1
    simp only [List.length_singleton]
    omega
  obtain ⟨hnf, hfound, hexh⟩ :=
    bfsLoop_main g forum start hs (g.size * g.size + 2) [start]
      [(start, none)] 0 hInit hmeas
  refine ⟨?_, ?_, ?_⟩
  · intro g2 hsz
    exact computePath_congr g g2 hsz forum start
  · intro dmin hex hmin
    obtain ⟨c0, hc0b, hc0f, hc0d⟩ := hex
    unfold computePath
    cases hbl : bfsLoop g forum (g.size * g.size + 2) [start]
        [(start, none)] with
    | fuelOut => exact absurd hbl hnf
    | exhausted v2 =>
      exfalso
      have hno := hexh v2 hbl c0 hc0b
      rw [hc0f] at hno
      exact Bool.noConfusion hno
    | found curr v2 =>
      obtain ⟨hP, hkb, hck, hcb, hcf, hminc⟩ := hfound curr v2 hbl
      have hde : mdist start curr = dmin := by
        have h1 := hmin curr hcb hcf
        have h2 := hminc c0 hc0b hc0f
        omega
      have hfuel : mdist start curr < v2.length + 1 := by
        have := hP.2.2.2 curr hck
        omega
      obtain ⟨hh, hl, hsp, hlen, hmm⟩ :=
        reconstructPath_spec g start v2 hP (v2.length + 1)
          (mdist start curr) curr hck rfl hfuel
      refine ⟨hh, ⟨curr, hl, hcf, hcb⟩, hsp, ?_, ?_, ?_⟩
      · intro c hc
        exact hkb c (hmm c hc)
      · rw [hlen, hde]
      · intro qq hq1 hq2 hq3
        obtain ⟨e2, he2l, he2b, he2f⟩ := hq3
        cases qq with
        | nil => exact absurd hq2 (by simp)
        | cons a t =>
          have ha : a = start := by simpa using hq2
          subst ha
          have hb := stepPath_length t a e2 hq1 he2l
          have hc2 := hmin e2 he2b he2f
          rw [hlen, hde]
          simp only [List.length_cons] at hb ⊢
          omega
  · intro hnone
    unfold computePath
    cases hbl : bfsLoop g forum (g.size * g.size + 2) [start]
        [(start, none)] with
    | fuelOut => exact absurd hbl hnf
    | exhausted v2 => rfl
    | found curr v2 =>
      exfalso
      obtain ⟨_, _, _, hcb, hcf, _⟩ := hfound curr v2 hbl
      have := hnone curr hcb
      rw [hcf] at this
      exact Bool.noConfusion this

/-- Witness for C4: on a fresh 4×4 grid with the forum at (2,2), the path
computed from (0,0) has the shortest-path length 5, and inserting a wall
does not change the computed path. -/
theorem computePath_spec_witness :
    (computePath (Grid.new 4) (2, 2) (0, 0)).length = 4 + 1 ∧
    computePath ((Grid.new 4).modifyTile 1 0
        (fun t => { t with building := some .wall })) (2, 2) (0, 0) =
      computePath (Grid.new 4) (2, 2) (0, 0) := by
  have h := computePath_spec (Grid.new 4) (2, 2) (0, 0) (by decide)
  refine ⟨?_, ?_⟩
  · have hmin : ∀ c : Pos, (Grid.new 4).isInBounds c.1 c.2 = true →
        reachedForum (2, 2) c = true → 4 ≤ mdist (0, 0) c := by
      intro c _ hcf
      obtain ⟨cx, cz⟩ := c
      unfold reachedForum at hcf
      rw [show forumSize = 2 from rfl] at hcf
      simp only [List.any_eq_true, List.mem_range, decide_eq_true_eq] at hcf
      obtain ⟨dx, hdx, dz, hdz, h1, h2⟩ := hcf
      unfold mdist
      dsimp only at h1 h2 ⊢
      omega
    exact (h.2.1 4 ⟨(2, 2), by decide, by decide, by decide⟩ hmin).2.2.2.2.1
  · exact h.1 ((Grid.new 4).modifyTile 1 0
      (fun t => { t with building := some .wall }))
      (Grid.modifyTile_size (Grid.new 4) 1 0 _)

end Massilia
